import Mathlib

/-!
Shallow embedding of the trade-accounting core of the TrackStack journal
application (src/src/context/TradeContext.tsx and the performance metrics of
src/src/pages/Analysis.tsx), together with theorems settling the frozen
claims about it.

Modelling conventions:
* JavaScript numbers are modelled as rationals (`ℚ`); `toFixed(n)` is
  modelled as rounding to `n` decimals (nearest, half up).  Division by zero
  yields `0` in `ℚ` where JavaScript would yield `NaN`/`Infinity`; no claim
  in scope depends on such inputs.
* ISO time strings are modelled at the granularity the embedded code reads
  them: `closeTime` is an integer day index (the `yyyy-MM-dd` bucketing of
  `dailyStats` and the `closeTime` ordering read nothing finer that the
  claims depend on) and `openTime` is an integer minute index on a timeline
  whose origin is a Sunday midnight (so `getDay`/`getHours` become integer
  divisions); the duration accumulation of `timeAnalysis` reads `closeTime`
  at the start of its day.
* `undefined`-able fields are `Option`s.  JavaScript truthiness on numbers
  (`0` and `undefined` falsy) is modelled explicitly where the code branches
  on it.
* The in-memory (local, signed-out) branch of each mutator is embedded; the
  remote branch applies the same computations through a write batch and the
  snapshot listeners.  State is a record of the provider's three pieces of
  React state.
* `crypto.randomUUID()` is modelled by passing the fresh identifier as an
  explicit argument.
-/

namespace TrackStack

/-- BUY or SELL, the `type` field of a trade. -/
inductive TradeType where
  | BUY : TradeType
  | SELL : TradeType
deriving DecidableEq, Repr

/-- Direction sign used by every P&L formula: `type === 'BUY' ? 1 : -1`. -/
def dirSign : TradeType → ℚ
  | TradeType.BUY => 1
  | TradeType.SELL => -1

/-- The `status` field of a trade. -/
inductive TradeStatus where
  | OPEN : TradeStatus
  | CLOSED : TradeStatus
  | PENDING : TradeStatus
deriving DecidableEq, Repr

/-- A partial exit (sub-entity of Trade, from src/src/lib/firebase.ts).  The
`id`, `type` and `date` fields are never read by the embedded operations and
are omitted. -/
structure Exit where
  percentage : ℚ
  price : ℚ
deriving DecidableEq, Repr

/-- The risk part of a trade's behavioural record (src/src/lib/firebase.ts);
the `didRespectPositionSize` and `exitType` fields are never read by the
embedded derivations and are omitted. -/
structure BehaviorRisk where
  isAdheredToPlan : Bool
  didMoveStopLoss : Bool
deriving DecidableEq, Repr

/-- The emotions part of a trade's behavioural record; the `during` and
exit lists are never read by the embedded derivations and are omitted. -/
structure BehaviorEmotions where
  entry : List String
deriving DecidableEq, Repr

/-- A trade's optional behavioural record (the `behavior` field); the
`timing` and `psychScore` parts are never read by the embedded derivations
and are omitted. -/
structure Behavior where
  risk : BehaviorRisk
  emotions : BehaviorEmotions
deriving DecidableEq, Repr

/-- A trade record (src/src/lib/firebase.ts).  Fields that none of the
embedded operations read (stopLoss, notes, tags, …) are omitted;
`closeTime` is an integer day index and `openTime` an integer minute index
(see the module comment); the string-literal psychology tag is a string. -/
structure Trade where
  id : String
  accountId : String
  symbol : String
  type : TradeType
  entryPrice : ℚ
  exitPrice : ℚ
  size : ℚ
  pnl : ℚ
  pnlPercent : ℚ
  pips : Option ℚ
  rMultiple : Option ℚ
  openTime : ℤ
  closeTime : ℤ
  status : TradeStatus
  exits : Option (List Exit)
  psychology : Option String := none
  behavior : Option Behavior := none
deriving DecidableEq, Repr

/-- An account record (src/src/lib/firebase.ts). -/
structure Account where
  id : String
  name : String
  balance : ℚ
  equity : ℚ
  currency : String
deriving DecidableEq, Repr

/-- One bucket of the derived daily statistics; `date` is the day index that
models the `yyyy-MM-dd` key. -/
structure DailyStat where
  date : ℤ
  pnl : ℚ
  tradesCount : ℕ
  winRate : ℚ
  rMultiple : ℚ
  pips : ℚ
deriving DecidableEq, Repr

/-- Rounding to one decimal, nearest with half up: models
`Number(x.toFixed(1))` on the exact values the claims use. -/
def roundTo1 (q : ℚ) : ℚ := (round (q * 10) : ℚ) / 10

/-- Rounding to two decimals, modelling `Number(x.toFixed(2))`. -/
def roundTo2 (q : ℚ) : ℚ := (round (q * 100) : ℚ) / 100

/-- Whether `sym.toUpperCase().includes('JPY')`: the uppercased symbol
contains the substring JPY. -/
def symbolHasJPY (symbol : String) : Bool :=
  (symbol.toUpper.splitOn "JPY").length > 1

/-- The `calculatePips` helper of TradeContext.tsx (lines 148-167): returns 0
when the symbol is empty or either price is 0 (JavaScript truthiness guard
`!symbol || !entry || !exit`), otherwise the signed price difference times
10000 (100 for JPY pairs), rounded to one decimal. -/
def calculatePips (symbol : String) (entry exit : ℚ) (type : TradeType) : ℚ :=
  if symbol = "" ∨ entry = 0 ∨ exit = 0 then 0
  else
    let multiplier : ℚ := if symbolHasJPY symbol then 100 else 10000
    let diff : ℚ :=
      match type with
      | TradeType.BUY => exit - entry
      | TradeType.SELL => entry - exit
    roundTo1 (diff * multiplier)

/-- The provider's in-memory state: the three pieces of React state of
`TradeProvider` (`accounts`, `activeAccountId`, `trades`). -/
structure LedgerState where
  accounts : List Account
  activeAccountId : String
  trades : List Trade
deriving DecidableEq, Repr

/-- The placeholder account of the `activeAccount` memo
(`{id:'loading', name:'Loading...', balance:0, equity:0, currency:'USD'}`). -/
def loadingAccount : Account :=
  { id := "loading", name := "Loading...", balance := 0, equity := 0, currency := "USD" }

/-- The `activeAccount` derivation (TradeContext.tsx lines 79-89):
`accounts.find(a => a.id === activeAccountId) || accounts[0] || loading`. -/
def activeAccount (st : LedgerState) : Account :=
  match st.accounts.find? (fun a => a.id == st.activeAccountId) with
  | some a => a
  | none => st.accounts.headD loadingAccount

/-- The `updateAccountBalanceLocal` helper (lines 229-240): bump balance and
equity of every account whose id matches. -/
def updateAccountBalanceLocal (accounts : List Account) (accountId : String)
    (amountChange : ℚ) : List Account :=
  accounts.map (fun acc =>
    if acc.id == accountId then
      { acc with balance := acc.balance + amountChange,
                 equity := acc.equity + amountChange }
    else acc)

/-- Input of `addTrade`: `Omit<Trade,'id'|'accountId'|'pnlPercent'|'status'>`
with `pnl` optional. -/
structure AddTradeInput where
  symbol : String
  type : TradeType
  entryPrice : ℚ
  exitPrice : ℚ
  size : ℚ
  pnl : Option ℚ
  pips : Option ℚ
  rMultiple : Option ℚ
  openTime : ℤ
  closeTime : ℤ
  exits : Option (List Exit)
  psychology : Option String := none
  behavior : Option Behavior := none
deriving DecidableEq, Repr

/-- The trade record built by `addTrade` (lines 369-405).  When `pnl` is
undefined the source computes the same simple formula in both the
with-exits and the without-exits branch (lines 373-383).  The fresh
`crypto.randomUUID()` is the explicit `newId` argument. -/
def builtTrade (st : LedgerState) (newId : String) (d : AddTradeInput) : Trade :=
  let pnl : ℚ :=
    match d.pnl with
    | some p => p
    | none => (d.exitPrice - d.entryPrice) * d.size * dirSign d.type * 100
  let pips : ℚ :=
    match d.pips with
    | some p => p
    | none => calculatePips d.symbol d.entryPrice d.exitPrice d.type
  let currentBalance := (activeAccount st).balance
  let pnlPercent : ℚ := if currentBalance ≠ 0 then roundTo2 (pnl / currentBalance * 100) else 0
  { id := newId
    accountId := st.activeAccountId
    symbol := d.symbol
    type := d.type
    entryPrice := d.entryPrice
    exitPrice := d.exitPrice
    size := d.size
    pnl := pnl
    pnlPercent := pnlPercent
    pips := some (roundTo1 pips)
    rMultiple := d.rMultiple
    openTime := d.openTime
    closeTime := d.closeTime
    status := TradeStatus.CLOSED
    exits := d.exits
    psychology := d.psychology
    behavior := d.behavior }

/-- The `addTrade` operation (lines 369-430), local branch: prepend the
built trade and bump the active account's balance and equity by its pnl. -/
def addTrade (st : LedgerState) (newId : String) (d : AddTradeInput) : LedgerState :=
  let trade : Trade := builtTrade st newId d
  { st with trades := trade :: st.trades,
            accounts := updateAccountBalanceLocal st.accounts st.activeAccountId trade.pnl }

/-- Partial update passed to `editTrade`:
`Partial<Omit<Trade,'id'|'accountId'>>`.  A `none` field is an absent
(`undefined`) key of the update object. -/
structure TradeUpdates where
  symbol : Option String
  type : Option TradeType
  entryPrice : Option ℚ
  exitPrice : Option ℚ
  size : Option ℚ
  pnl : Option ℚ
  pnlPercent : Option ℚ
  pips : Option ℚ
  rMultiple : Option ℚ
  openTime : Option ℤ
  closeTime : Option ℤ
  status : Option TradeStatus
  exits : Option (List Exit)
  psychology : Option String := none
  behavior : Option Behavior := none
deriving DecidableEq, Repr

/-- The update object with every field absent. -/
def TradeUpdates.empty : TradeUpdates :=
  { symbol := none, type := none, entryPrice := none, exitPrice := none,
    size := none, pnl := none, pnlPercent := none, pips := none,
    rMultiple := none, openTime := none, closeTime := none, status := none,
    exits := none }

/-- The spread `{ ...trade, ...updates }`: present update fields override. -/
def mergeUpdates (t : Trade) (u : TradeUpdates) : Trade :=
  { t with
    symbol := u.symbol.getD t.symbol
    type := u.type.getD t.type
    entryPrice := u.entryPrice.getD t.entryPrice
    exitPrice := u.exitPrice.getD t.exitPrice
    size := u.size.getD t.size
    pnl := u.pnl.getD t.pnl
    pnlPercent := u.pnlPercent.getD t.pnlPercent
    pips := match u.pips with | some p => some p | none => t.pips
    rMultiple := match u.rMultiple with | some r => some r | none => t.rMultiple
    openTime := u.openTime.getD t.openTime
    closeTime := u.closeTime.getD t.closeTime
    status := u.status.getD t.status
    exits := match u.exits with | some es => some es | none => t.exits
    psychology := match u.psychology with | some p => some p | none => t.psychology
    behavior := match u.behavior with | some b => some b | none => t.behavior }

/-- JavaScript truthiness of a possibly-absent number: `undefined` and `0`
are falsy. -/
def truthyNum : Option ℚ → Bool
  | none => false
  | some v => v != 0

/-- JavaScript truthiness of a possibly-absent trade type: the strings
BUY and SELL are both truthy. -/
def truthyType : Option TradeType → Bool
  | none => false
  | some _ => true

/-- The `calculatePnlFromExits` helper inside `editTrade` (lines 433-441):
accumulate `(exit.price - entry) * (size * pct/100) * direction * 100`. -/
def calculatePnlFromExits (entry size : ℚ) (type : TradeType) (exits : List Exit) : ℚ :=
  exits.foldl (fun totalPnl e =>
    totalPnl + (e.price - entry) * (size * (e.percentage / 100)) * dirSign type * 100) 0

/-- The recomputation block of `editTrade` (identical in the remote branch,
lines 447-475, and the local branch, lines 508-533): merge the updates, then
conditionally recompute `pnl`, `exitPrice` and `pips` driven by the
truthiness of the updated fields. -/
def applyEditComputations (oldTrade : Trade) (u : TradeUpdates) : Trade :=
  let updated := mergeUpdates oldTrade u
  let updated :=
    if u.pnl.isNone then
      match u.exits with
      | some exits =>
        if exits.length > 0 then
          let withPnl :=
            { updated with
              pnl := calculatePnlFromExits updated.entryPrice updated.size updated.type exits }
          let totalExitPrice : ℚ := exits.foldl (fun s e => s + e.price * (e.percentage / 100)) 0
          let totalPercentage : ℚ := exits.foldl (fun s e => s + e.percentage) 0
          if totalPercentage > 0 then { withPnl with exitPrice := totalExitPrice } else withPnl
        else if truthyNum u.entryPrice || truthyNum u.exitPrice || truthyNum u.size
                || truthyType u.type then
          { updated with
            pnl := (updated.exitPrice - updated.entryPrice) * updated.size
                     * dirSign updated.type * 100 }
        else updated
      | none =>
        if truthyNum u.entryPrice || truthyNum u.exitPrice || truthyNum u.size
            || truthyType u.type then
          { updated with
            pnl := (updated.exitPrice - updated.entryPrice) * updated.size
                     * dirSign updated.type * 100 }
        else updated
    else updated
  if u.pips.isNone && (truthyNum u.entryPrice || truthyNum u.exitPrice || truthyType u.type) then
    { updated with
      pips := some (calculatePips updated.symbol updated.entryPrice updated.exitPrice updated.type) }
  else updated

/-- Replace the first trade whose id matches (models `findIndex` followed by
assignment at that index). -/
def replaceFirstTrade : List Trade → String → Trade → List Trade
  | [], _, _ => []
  | t :: ts, id, nt => if t.id == id then nt :: ts else t :: replaceFirstTrade ts id nt

/-- The `editTrade` operation (lines 432-547), local branch: no-op when the
id is not found; otherwise store the recomputed trade and apply the `pnl`
difference to the owning account's balance when it is non-zero. -/
def editTrade (st : LedgerState) (id : String) (u : TradeUpdates) : LedgerState :=
  match st.trades.find? (fun t => t.id == id) with
  | none => st
  | some oldTrade =>
    let updatedTrade := applyEditComputations oldTrade u
    let pnlDiff := updatedTrade.pnl - oldTrade.pnl
    { st with
      trades := replaceFirstTrade st.trades id updatedTrade,
      accounts :=
        if pnlDiff ≠ 0 then
          updateAccountBalanceLocal st.accounts oldTrade.accountId pnlDiff
        else st.accounts }

/-- Insert into the association list that models the `accountPnlChanges`
`Map`: `map.set(key, (map.get(key) || 0) + v)` preserving insertion order. -/
def addPnlChange : List (String × ℚ) → String → ℚ → List (String × ℚ)
  | [], key, v => [(key, v)]
  | (k, w) :: rest, key, v =>
    if k == key then (k, w + v) :: rest else (k, w) :: addPnlChange rest key v

/-- Build the `accountPnlChanges` map of the local branch of `deleteTrades`
(lines 582-588): for each deleted trade, charge `-pnl` to
`trade.accountId || activeAccountId` (empty string models a missing legacy
accountId, which is falsy). -/
def buildPnlChanges (tradesToDelete : List Trade) (activeAccountId : String) :
    List (String × ℚ) :=
  tradesToDelete.foldl (fun m t =>
    addPnlChange m (if t.accountId ≠ "" then t.accountId else activeAccountId) (-t.pnl)) []

/-- The `deleteTrades` operation (lines 553-596), local branch: remove the
matching trades, then apply one batched balance adjustment per affected
account. -/
def deleteTrades (st : LedgerState) (ids : List String) : LedgerState :=
  if ids.length = 0 then st
  else
    let tradesToDelete := st.trades.filter (fun t => ids.contains t.id)
    let changes := buildPnlChanges tradesToDelete st.activeAccountId
    { st with
      trades := st.trades.filter (fun t => !(ids.contains t.id)),
      accounts := changes.foldl
        (fun accs kv => updateAccountBalanceLocal accs kv.1 kv.2) st.accounts }

/-- The `switchAccount` operation (lines 273-280): change the active-account
pointer only when the id exists. -/
def switchAccount (st : LedgerState) (id : String) : LedgerState :=
  if st.accounts.any (fun a => a.id == id) then { st with activeAccountId := id } else st

/-- Stable insertion into a name-sorted account list. -/
def insertByName (a : Account) : List Account → List Account
  | [] => [a]
  | b :: rest => if a.name ≤ b.name then a :: b :: rest else b :: insertByName a rest

/-- Stable sort of accounts by name, modelling
`newAccounts.sort((a, b) => a.name.localeCompare(b.name))` with the string
order standing in for the locale order. -/
def sortAccountsByName : List Account → List Account
  | [] => []
  | a :: rest => insertByName a (sortAccountsByName rest)

/-- The accounts `onSnapshot` handler (lines 177-208): for a non-empty
snapshot, store the name-sorted account list and keep the active id when it
still exists, otherwise fall back to the first account of the sorted list.
An empty snapshot only issues a remote write (creating a default account)
and changes no local state. -/
def accountsSnapshotUpdate (st : LedgerState) (newAccounts : List Account) : LedgerState :=
  let sorted := sortAccountsByName newAccounts
  match sorted with
  | [] => st
  | first :: _ =>
    { st with
      accounts := sorted,
      activeAccountId :=
        if sorted.any (fun a => a.id == st.activeAccountId) then st.activeAccountId
        else first.id }

/-- One ledger mutation, for stating the balance invariant over operation
sequences (`deleteTrade id` is `deleteTrades [id]`, line 550). -/
inductive Op where
  | add : String → AddTradeInput → Op
  | edit : String → TradeUpdates → Op
  | del : List String → Op
deriving Repr

/-- Apply one operation. -/
def applyOp (st : LedgerState) : Op → LedgerState
  | Op.add newId d => addTrade st newId d
  | Op.edit id u => editTrade st id u
  | Op.del ids => deleteTrades st ids

/-- Apply a sequence of operations from left to right. -/
def applyOps (st : LedgerState) (ops : List Op) : LedgerState :=
  ops.foldl applyOp st

/-- Sum of `pnl` over the trades owned by the given account id. -/
def ownedPnlSum (trades : List Trade) (accId : String) : ℚ :=
  ((trades.filter (fun t => t.accountId == accId)).map Trade.pnl).sum

/-- A zero-initialized daily bucket (lines 328-335). -/
def zeroStat (d : ℤ) : DailyStat :=
  { date := d, pnl := 0, tradesCount := 0, winRate := 0, rMultiple := 0, pips := 0 }

/-- Fold one trade into an existing bucket (lines 342-345):
sum `pnl`, count, `rMultiple || 0` and `pips || 0`. -/
def bumpStat (s : DailyStat) (t : Trade) : DailyStat :=
  { s with pnl := s.pnl + t.pnl,
           tradesCount := s.tradesCount + 1,
           rMultiple := s.rMultiple + t.rMultiple.getD 0,
           pips := s.pips + t.pips.getD 0 }

/-- Fold one trade into the bucket list that models the `statsMap` `Map`
(lines 338-356): update the bucket matching the trade's close date in place,
or append a fresh bucket holding just this trade at the end (a `Map.set` on
a new key appends in iteration order). -/
def foldTradeIntoStats : List DailyStat → Trade → List DailyStat
  | [], t => [bumpStat (zeroStat t.closeTime) t]
  | s :: rest, t =>
    if s.date == t.closeTime then bumpStat s t :: rest
    else s :: foldTradeIntoStats rest t

/-- Stable insertion into a date-sorted bucket list. -/
def insertByDate (s : DailyStat) : List DailyStat → List DailyStat
  | [] => [s]
  | b :: rest => if s.date ≤ b.date then s :: b :: rest else b :: insertByDate s rest

/-- Stable ascending sort by date, modelling
`result.sort((a, b) => new Date(a.date).getTime() - new Date(b.date).getTime())`. -/
def sortStatsByDate : List DailyStat → List DailyStat
  | [] => []
  | s :: rest => insertByDate s (sortStatsByDate rest)

/-- The initialization loop of `dailyStats` (lines 325-336): one zeroed
bucket per day of the trailing 30-day window anchored at the evaluation
date. -/
def initStats (today : ℤ) : List DailyStat :=
  (List.range 30).map (fun i : ℕ => zeroStat (today - (i : ℤ)))

/-- The `dailyStats` derivation (lines 321-367).  `today` is the evaluation
date (`new Date()`): the code seeds one zeroed bucket per day of the
trailing 30-day window anchored at the current date, folds every trade into
the bucket matching its close date (appending a new bucket when the date is
outside the window), recomputes each bucket's win rate from the trades
closing on that date, and sorts ascending by date. -/
def dailyStats (today : ℤ) (activeTrades : List Trade) : List DailyStat :=
  let init : List DailyStat := initStats today
  let folded := activeTrades.foldl foldTradeIntoStats init
  let result := folded.map (fun stat =>
    let dayTrades := activeTrades.filter (fun t => t.closeTime == stat.date)
    let wins := (dayTrades.filter (fun t => t.pnl > 0)).length
    { stat with winRate :=
        if dayTrades.length > 0 then ((wins : ℚ) / (dayTrades.length : ℚ)) * 100 else 0 })
  sortStatsByDate result

/-- The record returned by the `performanceMetrics` memo of Analysis.tsx
(lines 46-118); the string-formatting `toFixed` calls are modelled as
rounding. -/
structure PerfMetrics where
  profitFactor : ℚ
  expectancy : ℚ
  winRate : ℚ
  lossRate : ℚ
  breakevenRate : ℚ
  avgWin : ℚ
  avgLoss : ℚ
  totalTrades : ℕ
  maxConsecutiveWins : ℕ
  maxConsecutiveLosses : ℕ
  maxDrawdown : ℚ
deriving DecidableEq, Repr

/-- Stable insertion into a closeTime-sorted trade list. -/
def insertByClose (t : Trade) : List Trade → List Trade
  | [] => [t]
  | u :: rest => if t.closeTime ≤ u.closeTime then t :: u :: rest else u :: insertByClose t rest

/-- Stable ascending sort by `closeTime`, modelling
`[...trades].sort((a, b) => closeTime difference)` (Analysis.tsx line 79). -/
def sortTradesByClose : List Trade → List Trade
  | [] => []
  | t :: rest => insertByClose t (sortTradesByClose rest)

/-- Maximum consecutive win and loss streaks over a time-ordered `pnl`
sequence (Analysis.tsx lines 72-91). -/
def maxStreaks (pnls : List ℚ) : ℕ × ℕ :=
  let final := pnls.foldl
    (fun acc pnl =>
      let (maxW, maxL, curW, curL) := acc
      if pnl > 0 then
        (if curW + 1 > maxW then curW + 1 else maxW, maxL, curW + 1, 0)
      else if pnl < 0 then
        (maxW, if curL + 1 > maxL then curL + 1 else maxL, 0, curL + 1)
      else (maxW, maxL, curW, curL))
    ((0, 0, 0, 0) : ℕ × ℕ × ℕ × ℕ)
  (final.1, final.2.1)

/-- Maximum peak-to-trough drop of the cumulative-`pnl` walk over a
time-ordered `pnl` sequence (Analysis.tsx lines 93-103). -/
def maxDrawdownOf (pnls : List ℚ) : ℚ :=
  let final := pnls.foldl
    (fun acc pnl =>
      let (peak, cur, maxDD) := acc
      let cur := cur + pnl
      let peak := if cur > peak then cur else peak
      let dd := peak - cur
      (peak, cur, if dd > maxDD then dd else maxDD))
    ((0, 0, 0) : ℚ × ℚ × ℚ)
  final.2.2

/-- The `performanceMetrics` derivation of Analysis.tsx (lines 46-118).
Divisions that JavaScript would perform on an empty trade list produce `NaN`
there and `0` in `ℚ`; both are deterministic. -/
def performanceMetrics (trades : List Trade) : PerfMetrics :=
  let grossProfit : ℚ := ((trades.filter (fun t => t.pnl > 0)).map Trade.pnl).sum
  let grossLoss : ℚ := ((trades.filter (fun t => t.pnl < 0)).map (fun t => |t.pnl|)).sum
  let wins := (trades.filter (fun t => t.pnl > 0)).length
  let losses := (trades.filter (fun t => t.pnl < 0)).length
  let breakeven := (trades.filter (fun t => ¬ (t.pnl > 0) ∧ ¬ (t.pnl < 0))).length
  let profitFactor : ℚ := if grossLoss = 0 then grossProfit else grossProfit / grossLoss
  let winRate : ℚ := if trades.length > 0 then ((wins : ℚ) / (trades.length : ℚ)) * 100 else 0
  let avgWin : ℚ := if wins > 0 then grossProfit / (wins : ℚ) else 0
  let avgLoss : ℚ := if losses > 0 then grossLoss / (losses : ℚ) else 0
  let expectancy : ℚ :=
    (winRate / 100 * avgWin) - (((losses : ℚ) / (trades.length : ℚ)) * avgLoss)
  let sortedPnls := (sortTradesByClose trades).map Trade.pnl
  let streaks := maxStreaks sortedPnls
  { profitFactor := roundTo2 profitFactor
    expectancy := roundTo2 expectancy
    winRate := roundTo1 winRate
    lossRate :=
      if trades.length > 0 then roundTo1 (((losses : ℚ) / (trades.length : ℚ)) * 100) else 0
    breakevenRate :=
      if trades.length > 0 then roundTo1 (((breakeven : ℚ) / (trades.length : ℚ)) * 100) else 0
    avgWin := roundTo2 avgWin
    avgLoss := roundTo2 avgLoss
    totalTrades := trades.length
    maxConsecutiveWins := streaks.1
    maxConsecutiveLosses := streaks.2
    maxDrawdown := roundTo2 (maxDrawdownOf sortedPnls) }

/-! ### Shared helpers and fixtures -/

/-- Bump an account's balance and equity by a delta. -/
def bumpAccount (acc : Account) (delta : ℚ) : Account :=
  { acc with balance := acc.balance + delta, equity := acc.equity + delta }

/-- Look up the first account with the given id. -/
def findAccount (accs : List Account) (aid : String) : Option Account :=
  accs.find? (fun a => a.id == aid)

/-- A sample closed BUY trade used by concrete counterexamples. -/
def sampleTrade : Trade :=
  { id := "t1", accountId := "A", symbol := "EURUSD", type := TradeType.BUY,
    entryPrice := 1, exitPrice := 2, size := 1, pnl := 5, pnlPercent := 5,
    pips := some 5, rMultiple := none, openTime := 0, closeTime := 0,
    status := TradeStatus.CLOSED, exits := none }

/-- A sample account used by concrete counterexamples. -/
def sampleAccount : Account :=
  { id := "A", name := "Alpha", balance := 100, equity := 100, currency := "USD" }

/-- A sample one-account, one-trade ledger state. -/
def sampleState : LedgerState :=
  { accounts := [sampleAccount], activeAccountId := "A", trades := [sampleTrade] }

/-! ### C5: the pips formula -/

/-- C5 counterexample: the claim asserts the rounding formula for every
trade, but `calculatePips` short-circuits to 0 when a price is 0: a BUY on
EURUSD with entry 0 and exit 1 yields 0, not `round((1-0)*10000, 1) = 10000`. -/
theorem C5_counterexample :
    calculatePips "EURUSD" 0 1 TradeType.BUY = 0 ∧
    roundTo1 (((1 : ℚ) - 0) * 10000) = 10000 ∧
    calculatePips "EURUSD" 0 1 TradeType.BUY ≠ roundTo1 (((1 : ℚ) - 0) * 10000) := by
  refine ⟨by with_unfolding_all rfl, by norm_num [roundTo1], ?_⟩
  intro h
  rw [show calculatePips "EURUSD" 0 1 TradeType.BUY = 0 from by with_unfolding_all rfl,
      show roundTo1 (((1 : ℚ) - 0) * 10000) = 10000 from by norm_num [roundTo1]] at h
  norm_num at h

/-- C5 (amended): whenever the symbol is non-empty and both prices are
non-zero, pips equals the claimed formula — round to one decimal of the
direction-signed price difference times 100 for JPY symbols and 10000
otherwise; in particular the three quoted examples all give 50.0. -/
theorem C5_pips_formula :
    (∀ (symbol : String) (entry exit : ℚ) (type : TradeType),
        symbol ≠ "" → entry ≠ 0 → exit ≠ 0 →
        calculatePips symbol entry exit type =
          roundTo1 ((match type with
            | TradeType.BUY => exit - entry
            | TradeType.SELL => entry - exit) *
            (if symbolHasJPY symbol then 100 else 10000))) ∧
    calculatePips "EURUSD" 1.1000 1.1050 TradeType.BUY = 50 ∧
    calculatePips "EURUSD" 1.1050 1.1000 TradeType.SELL = 50 ∧
    calculatePips "USDJPY" 110.00 110.50 TradeType.BUY = 50 := by
  refine ⟨?_, by with_unfolding_all rfl, by with_unfolding_all rfl, by with_unfolding_all rfl⟩
  intro symbol entry exit type h1 h2 h3
  simp only [calculatePips]
  rw [if_neg]
  push_neg
  exact ⟨h1, h2, h3⟩

/-- Witness for C5_pips_formula: the general formula instantiated at a BUY
with entry 2, exit 3 on EURUSD. -/
theorem C5_pips_formula_witness :
    calculatePips "EURUSD" 2 3 TradeType.BUY =
      roundTo1 ((match TradeType.BUY with
        | TradeType.BUY => (3 : ℚ) - 2
        | TradeType.SELL => (2 : ℚ) - 3) *
        (if symbolHasJPY "EURUSD" then 100 else 10000)) :=
  C5_pips_formula.1 "EURUSD" 2 3 TradeType.BUY (by decide) (by norm_num) (by norm_num)

/-- If some trade matches the id, the replacement trade is a member of the
result of `replaceFirstTrade`. -/
theorem replaceFirstTrade_mem (ts : List Trade) (id : String) (nt : Trade)
    (h : (ts.find? (fun t => t.id == id)).isSome) :
    nt ∈ replaceFirstTrade ts id nt := by
  induction ts with
  | nil => simp [List.find?] at h
  | cons t rest ih =>
    by_cases ht : (t.id == id) = true
    · simp [replaceFirstTrade, ht]
    · simp only [replaceFirstTrade, ht]
      rw [List.find?_cons_of_neg _ (by simp [ht])] at h
      simp [ht, ih h]

/-! ### C9: the zero-price guard of calculatePips and its consequences -/

/-- C9 counterexample: an edit that sets the entry price to the falsy value
0 (with no other truthy price/type change) does not trigger pips
recomputation, so the stored trade has entry price 0 yet keeps its old
non-zero pips — contradicting the claim that editTrade stores pips = 0 for
any trade whose entry price is 0. -/
theorem C9_counterexample :
    ((editTrade sampleState "t1"
        { TradeUpdates.empty with entryPrice := some 0 }).trades.head?.map
      (fun t => (t.entryPrice, t.pips))) = some (0, some 5) ∧
    some (5 : ℚ) ≠ some (0 : ℚ) := by
  constructor
  · with_unfolding_all rfl
  · intro h
    rw [Option.some_inj] at h
    norm_num at h

/-- C9 (amended): `calculatePips` returns 0 whenever the symbol is empty or
either price is 0; consequently `addTrade` stores pips = 0 for every input
without an explicit pips whose entry or exit price is 0, and `editTrade`
stores pips = 0 whenever its pips recomputation is actually triggered (a
truthy entry/exit/type update, with no exits update) and the merged entry
or exit price is 0. -/
theorem C9_zero_guard :
    (∀ (symbol : String) (entry exit : ℚ) (type : TradeType),
        (symbol = "" ∨ entry = 0 ∨ exit = 0) → calculatePips symbol entry exit type = 0) ∧
    (∀ (st : LedgerState) (newId : String) (d : AddTradeInput),
        d.pips = none → (d.entryPrice = 0 ∨ d.exitPrice = 0) →
        ∃ tr, (addTrade st newId d).trades = tr :: st.trades ∧ tr.pips = some 0) ∧
    (∀ (st : LedgerState) (id : String) (u : TradeUpdates) (oldTrade : Trade),
        st.trades.find? (fun t => t.id == id) = some oldTrade →
        u.pips = none → u.exits = none →
        (truthyNum u.entryPrice || truthyNum u.exitPrice || truthyType u.type) = true →
        ((mergeUpdates oldTrade u).entryPrice = 0 ∨ (mergeUpdates oldTrade u).exitPrice = 0) →
        (applyEditComputations oldTrade u).pips = some 0 ∧
        applyEditComputations oldTrade u ∈ (editTrade st id u).trades) := by
  refine ⟨?_, ?_, ?_⟩
  · intro symbol entry exit type h
    unfold calculatePips
    rw [if_pos h]
  · intro st newId d hpips hzero
    refine ⟨_, rfl, ?_⟩
    have hc : calculatePips d.symbol d.entryPrice d.exitPrice d.type = 0 := by
      unfold calculatePips
      rw [if_pos (Or.inr hzero)]
    simp only [builtTrade, hpips, hc]
    norm_num [roundTo1]
  · intro st id u oldTrade hfind hpips hexits htrig hzero
    have hproj : (applyEditComputations oldTrade u).pips =
        some (calculatePips (mergeUpdates oldTrade u).symbol
          (mergeUpdates oldTrade u).entryPrice (mergeUpdates oldTrade u).exitPrice
          (mergeUpdates oldTrade u).type) := by
      simp only [applyEditComputations, hexits, hpips, Option.isNone_none, htrig,
        Bool.and_true, Bool.true_and, if_true]
      by_cases hp : u.pnl.isNone
      · simp only [hp, if_true]
        by_cases ht : (truthyNum u.entryPrice || truthyNum u.exitPrice || truthyNum u.size
            || truthyType u.type) = true
        · simp [ht]
        · simp [ht]
      · simp [hp]
    refine ⟨?_, ?_⟩
    · rw [hproj]
      congr 1
      unfold calculatePips
      rw [if_pos (Or.inr hzero)]
    · have : (editTrade st id u).trades =
          replaceFirstTrade st.trades id (applyEditComputations oldTrade u) := by
        simp [editTrade, hfind]
      rw [this]
      exact replaceFirstTrade_mem _ _ _ (by simp [hfind])

/-- Witness for C9_zero_guard: the guard at an all-zero input, the addTrade
consequence on a concrete input with entry 0, and the editTrade consequence
for an edit of the sample trade that sets the exit price to 0 together with
a truthy entry price update. -/
theorem C9_zero_guard_witness :
    calculatePips "" 1 1 TradeType.BUY = 0 ∧
    (∃ tr, (addTrade sampleState "n1"
        { symbol := "EURUSD", type := TradeType.BUY, entryPrice := 0, exitPrice := 2,
          size := 1, pnl := some 0, pips := none, rMultiple := none,
          openTime := 0, closeTime := 0, exits := none }).trades =
        tr :: sampleState.trades ∧ tr.pips = some 0) ∧
    ((applyEditComputations sampleTrade
        { TradeUpdates.empty with entryPrice := some 3, exitPrice := some 0 }).pips = some 0 ∧
      applyEditComputations sampleTrade
        { TradeUpdates.empty with entryPrice := some 3, exitPrice := some 0 } ∈
        (editTrade sampleState "t1"
          { TradeUpdates.empty with entryPrice := some 3, exitPrice := some 0 }).trades) :=
  ⟨C9_zero_guard.1 "" 1 1 TradeType.BUY (Or.inl rfl),
   C9_zero_guard.2.1 sampleState "n1" _ rfl (Or.inl rfl),
   C9_zero_guard.2.2 sampleState "t1" _ sampleTrade (by with_unfolding_all rfl) rfl rfl
     (by decide) (Or.inr (by with_unfolding_all rfl))⟩

/-! ### C10: truthiness-driven recomputation frame in editTrade -/

/-- C10 (confirmed): an edit whose pnl, pips and exits are undefined and
whose provided entryPrice, exitPrice and size are all the falsy value 0
triggers no recomputation: the stored trade keeps the old pnl and pips, the
account collection (hence the owning account's balance) is untouched, yet
the price fields themselves are updated to 0. -/
theorem C10_falsy_price_updates_no_recompute :
    ∀ (st : LedgerState) (id : String) (u : TradeUpdates) (oldTrade : Trade),
      st.trades.find? (fun t => t.id == id) = some oldTrade →
      u.pnl = none → u.pips = none → u.exits = none →
      u.entryPrice = some 0 → u.exitPrice = some 0 → u.size = some 0 → u.type = none →
      (editTrade st id u).accounts = st.accounts ∧
      applyEditComputations oldTrade u ∈ (editTrade st id u).trades ∧
      (applyEditComputations oldTrade u).pnl = oldTrade.pnl ∧
      (applyEditComputations oldTrade u).pips = oldTrade.pips ∧
      (applyEditComputations oldTrade u).entryPrice = 0 ∧
      (applyEditComputations oldTrade u).exitPrice = 0 ∧
      (applyEditComputations oldTrade u).size = 0 := by
  intro st id u oldTrade hfind hpnl hpips hexits hentry hexit hsize htype
  have hcomp : applyEditComputations oldTrade u = mergeUpdates oldTrade u := by
    simp [applyEditComputations, hpnl, hpips, hexits, hentry, hexit, hsize, htype,
      truthyNum, truthyType]
  have hmergepnl : (mergeUpdates oldTrade u).pnl = oldTrade.pnl := by
    simp [mergeUpdates, hpnl]
  have htr : (editTrade st id u).trades =
      replaceFirstTrade st.trades id (applyEditComputations oldTrade u) := by
    simp [editTrade, hfind]
  refine ⟨?_, ?_, ?_, ?_, ?_, ?_, ?_⟩
  · simp [editTrade, hfind, hcomp, hmergepnl]
  · rw [htr]
    exact replaceFirstTrade_mem _ _ _ (by simp [hfind])
  · rw [hcomp, hmergepnl]
  · rw [hcomp]; simp [mergeUpdates, hpips]
  · rw [hcomp]; simp [mergeUpdates, hentry]
  · rw [hcomp]; simp [mergeUpdates, hexit]
  · rw [hcomp]; simp [mergeUpdates, hsize]

/-- The concrete all-zero price update used by the C10 witness. -/
def zeroPriceUpdates : TradeUpdates :=
  { TradeUpdates.empty with entryPrice := some 0, exitPrice := some 0, size := some 0 }

/-- Witness for C10: the frame property instantiated on the sample state
with the all-zero price update. -/
theorem C10_witness :
    (editTrade sampleState "t1" zeroPriceUpdates).accounts = sampleState.accounts ∧
    applyEditComputations sampleTrade zeroPriceUpdates ∈
      (editTrade sampleState "t1" zeroPriceUpdates).trades ∧
    (applyEditComputations sampleTrade zeroPriceUpdates).pnl = sampleTrade.pnl ∧
    (applyEditComputations sampleTrade zeroPriceUpdates).pips = sampleTrade.pips ∧
    (applyEditComputations sampleTrade zeroPriceUpdates).entryPrice = 0 ∧
    (applyEditComputations sampleTrade zeroPriceUpdates).exitPrice = 0 ∧
    (applyEditComputations sampleTrade zeroPriceUpdates).size = 0 :=
  C10_falsy_price_updates_no_recompute sampleState "t1" zeroPriceUpdates sampleTrade
    (by with_unfolding_all rfl) rfl rfl rfl rfl rfl rfl rfl

/-! ### C2: addTrade's pnl derivation ignores exits -/

/-- Modelled from the spec (the claim's formula), for comparison only: the
P&L over partial exits plus, when the percentages total less than 100 and a
truthy top-level exit price is present, the remainder closed at that price. -/
def specPnlWithExits (entry size : ℚ) (type : TradeType) (exits : List Exit)
    (topExitPrice : ℚ) : ℚ :=
  let fromExits :=
    (exits.map (fun e => (e.price - entry) * (size * (e.percentage / 100)) * dirSign type * 100)).sum
  let totalPct := (exits.map (fun e => e.percentage)).sum
  if totalPct < 100 ∧ topExitPrice ≠ 0 then
    fromExits + (topExitPrice - entry) * (size * ((100 - totalPct) / 100)) * dirSign type * 100
  else fromExits

/-- The C2 addTrade input: pnl undefined, one 50% partial exit at 1.01,
top-level exit price 1.02. -/
def c2Input : AddTradeInput :=
  { symbol := "EURUSD", type := TradeType.BUY, entryPrice := 1, exitPrice := 1.02,
    size := 10, pnl := none, pips := none, rMultiple := none, openTime := 0,
    closeTime := 0, exits := some [{ percentage := 50, price := 1.01 }] }

/-- C2 counterexample: on an input with pnl undefined and a non-empty exits
list, addTrade stores the simple whole-position pnl 20 while the claimed
exits-plus-remainder formula gives 15. -/
theorem C2_counterexample :
    ((addTrade sampleState "n1" c2Input).trades.head?.map Trade.pnl) = some 20 ∧
    specPnlWithExits 1 10 TradeType.BUY [{ percentage := 50, price := 1.01 }] 1.02 = 15 ∧
    (20 : ℚ) ≠ 15 := by
  refine ⟨by with_unfolding_all rfl, ?_, by norm_num⟩
  norm_num [specPnlWithExits, dirSign]

/-- C2 (amended): for every addTrade input whose pnl is undefined — with or
without exits — the stored trade's pnl is the simple whole-position formula
`(exitPrice - entryPrice) * size * direction * 100`; the exits-based
derivation is never applied by addTrade itself. -/
theorem C2_addTrade_simple_pnl :
    ∀ (st : LedgerState) (newId : String) (d : AddTradeInput), d.pnl = none →
      ∃ tr, (addTrade st newId d).trades = tr :: st.trades ∧
        tr.pnl = (d.exitPrice - d.entryPrice) * d.size * dirSign d.type * 100 := by
  intro st newId d hpnl
  refine ⟨_, rfl, ?_⟩
  simp [builtTrade, hpnl]

/-- Witness for C2_addTrade_simple_pnl at the concrete C2 input. -/
theorem C2_addTrade_simple_pnl_witness :
    ∃ tr, (addTrade sampleState "n1" c2Input).trades = tr :: sampleState.trades ∧
      tr.pnl = (c2Input.exitPrice - c2Input.entryPrice) * c2Input.size
                 * dirSign c2Input.type * 100 :=
  C2_addTrade_simple_pnl sampleState "n1" c2Input rfl

/-! ### C7: operations on missing ids are no-ops -/

/-- Deleting a set of ids none of which occurs in the ledger changes
nothing. -/
theorem deleteTrades_all_absent (st : LedgerState) (ids : List String)
    (h : ∀ t ∈ st.trades, t.id ∉ ids) : deleteTrades st ids = st := by
  rcases ids with _ | ⟨i, ids0⟩
  · rfl
  · unfold deleteTrades
    rw [if_neg (by simp)]
    have h1 : st.trades.filter (fun t => (i :: ids0).contains t.id) = [] := by
      rw [List.filter_eq_nil_iff]
      intro t ht
      simpa using h t ht
    have h2 : st.trades.filter (fun t => !((i :: ids0).contains t.id)) = st.trades := by
      rw [List.filter_eq_self]
      intro t ht
      simpa using h t ht
    simp only [h1, h2]
    rfl

/-- C7 (confirmed): operations on missing ids are no-ops.  For a trade id
absent from the ledger, `editTrade` leaves the state unchanged, the id
contributes nothing to a `deleteTrades` call (removing it from the id list
gives the same result), a `deleteTrades` call naming only absent ids
changes nothing, and `switchAccount` on an absent account id leaves the
active-account pointer unchanged. -/
theorem C7_missing_id_noops :
    ∀ (st : LedgerState) (tid : String) (u : TradeUpdates) (ids : List String) (aid : String),
      (∀ t ∈ st.trades, t.id ≠ tid) →
      (∀ a ∈ st.accounts, a.id ≠ aid) →
      editTrade st tid u = st ∧
      deleteTrades st ids = deleteTrades st (ids.erase tid) ∧
      ((∀ i ∈ ids, ∀ t ∈ st.trades, t.id ≠ i) → deleteTrades st ids = st) ∧
      (switchAccount st aid).activeAccountId = st.activeAccountId := by
  intro st tid u ids aid htid haid
  refine ⟨?_, ?_, ?_, ?_⟩
  · have hfind : st.trades.find? (fun t => t.id == tid) = none := by
      rw [List.find?_eq_none]
      intro t ht
      simpa using htid t ht
    simp [editTrade, hfind]
  · by_cases hmem : tid ∈ ids
    · by_cases hnil : ids.erase tid = []
      · have hids : ∀ x ∈ ids, x = tid := by
          intro x hx
          by_contra hne
          have hx2 : x ∈ ids.erase tid := (List.mem_erase_of_ne hne).mpr hx
          simp [hnil] at hx2
        have habs : ∀ t ∈ st.trades, t.id ∉ ids := by
          intro t ht hin
          exact htid t ht (hids _ hin)
        rw [hnil, deleteTrades_all_absent st ids habs]
        rfl
      · have hcont : ∀ t ∈ st.trades,
            (ids.contains t.id) = ((ids.erase tid).contains t.id) := by
          intro t ht
          have hne := htid t ht
          by_cases hx : t.id ∈ ids
          · have hx2 : t.id ∈ ids.erase tid := (List.mem_erase_of_ne hne).mpr hx
            simp [hx, hx2]
          · have hx2 : t.id ∉ ids.erase tid := fun h2 =>
              hx ((List.mem_erase_of_ne hne).mp h2)
            simp [hx, hx2]
        rcases ids with _ | ⟨i, ids0⟩
        · simp at hmem
        · unfold deleteTrades
          rw [if_neg (by simp), if_neg (by simp [List.length_eq_zero, hnil])]
          have e1 : st.trades.filter (fun t => ((i :: ids0).contains t.id)) =
              st.trades.filter (fun t => (((i :: ids0).erase tid).contains t.id)) :=
            List.filter_congr (fun t ht => hcont t ht)
          have e2 : st.trades.filter (fun t => !((i :: ids0).contains t.id)) =
              st.trades.filter (fun t => !(((i :: ids0).erase tid).contains t.id)) :=
            List.filter_congr (fun t ht => by rw [hcont t ht])
          rw [e1, e2]
    · rw [List.erase_of_not_mem hmem]
  · intro habs
    exact deleteTrades_all_absent st ids (fun t ht hin => habs _ hin t ht rfl)
  · have hany : st.accounts.any (fun a => a.id == aid) = false := by
      rw [List.any_eq_false]
      intro a ha
      simpa using haid a ha
    simp [switchAccount, hany]

/-- Witness for C7: a mixed deleteTrades call on the sample state — the
absent id x9 contributes nothing, a deleteTrades of only absent ids is the
identity, and editTrade and switchAccount on absent ids change nothing. -/
theorem C7_witness :
    editTrade sampleState "x9" TradeUpdates.empty = sampleState ∧
    deleteTrades sampleState ["x9"] = deleteTrades sampleState (["x9"].erase "x9") ∧
    deleteTrades sampleState ["x9"] = sampleState ∧
    (switchAccount sampleState "B").activeAccountId = sampleState.activeAccountId := by
  have h := C7_missing_id_noops sampleState "x9" TradeUpdates.empty ["x9"] "B"
    (by decide) (by decide)
  exact ⟨h.1, h.2.1, h.2.2.1 (by decide), h.2.2.2⟩

/-! ### C8: active-account failover on account snapshots -/

/-- Membership is preserved by the name-sorted insertion. -/
theorem mem_insertByName (a b : Account) (l : List Account) :
    a ∈ insertByName b l ↔ a = b ∨ a ∈ l := by
  induction l with
  | nil => simp [insertByName]
  | cons c rest ih =>
    by_cases hc : b.name ≤ c.name
    · simp [insertByName, hc]
    · simp [insertByName, hc, ih]
      tauto

/-- Sorting accounts by name preserves membership. -/
theorem mem_sortAccountsByName (a : Account) (l : List Account) :
    a ∈ sortAccountsByName l ↔ a ∈ l := by
  induction l with
  | nil => simp [sortAccountsByName]
  | cons b rest ih => simp [sortAccountsByName, mem_insertByName, ih]

/-- C8 (confirmed): when a non-empty account snapshot arrives, the stored
account list becomes the name-sorted snapshot; the active-account pointer is
kept when its id still occurs in the snapshot and otherwise deterministically
falls back to the first account of the sorted snapshot, which belongs to the
updated set. -/
theorem C8_active_account_failover :
    ∀ (st : LedgerState) (newAccounts : List Account) (first : Account) (rest : List Account),
      sortAccountsByName newAccounts = first :: rest →
      (accountsSnapshotUpdate st newAccounts).accounts = sortAccountsByName newAccounts ∧
      ((∃ a ∈ newAccounts, a.id = st.activeAccountId) →
        (accountsSnapshotUpdate st newAccounts).activeAccountId = st.activeAccountId) ∧
      ((¬ ∃ a ∈ newAccounts, a.id = st.activeAccountId) →
        (accountsSnapshotUpdate st newAccounts).activeAccountId = first.id ∧
        first ∈ newAccounts) := by
  intro st newAccounts first rest hsort
  have hany : ((first :: rest).any (fun a => a.id == st.activeAccountId) = true) ↔
      ∃ a ∈ newAccounts, a.id = st.activeAccountId := by
    rw [← hsort]
    simp only [List.any_eq_true, beq_iff_eq]
    constructor
    · rintro ⟨a, ha, he⟩
      exact ⟨a, (mem_sortAccountsByName a newAccounts).mp ha, he⟩
    · rintro ⟨a, ha, he⟩
      exact ⟨a, (mem_sortAccountsByName a newAccounts).mpr ha, he⟩
  refine ⟨?_, ?_, ?_⟩
  · simp [accountsSnapshotUpdate, hsort]
  · intro hex
    simp [accountsSnapshotUpdate, hsort, hany.mpr hex]
  · intro hnex
    have hf : (first :: rest).any (fun a => a.id == st.activeAccountId) = false := by
      rw [Bool.eq_false_iff]
      intro h
      exact hnex (hany.mp h)
    constructor
    · simp [accountsSnapshotUpdate, hsort, hf]
    · exact (mem_sortAccountsByName first newAccounts).mp (hsort ▸ List.mem_cons_self first rest)

/-- Concrete accounts for the C8 witness: two accounts whose names reverse
their list order under sorting. -/
def accB : Account := { id := "B", name := "Beta", balance := 0, equity := 0, currency := "USD" }

/-- Second concrete account for the C8 witness. -/
def accC : Account := { id := "C", name := "Alpha2", balance := 0, equity := 0, currency := "USD" }

/-- Witness for C8: a snapshot not containing the sample state's active id
A makes the update fall back to the first account of the sorted snapshot
(accC, whose name sorts first). -/
theorem C8_witness :
    (accountsSnapshotUpdate sampleState [accB, accC]).accounts =
      sortAccountsByName [accB, accC] ∧
    ((∃ a ∈ [accB, accC], a.id = sampleState.activeAccountId) →
      (accountsSnapshotUpdate sampleState [accB, accC]).activeAccountId =
        sampleState.activeAccountId) ∧
    ((¬ ∃ a ∈ [accB, accC], a.id = sampleState.activeAccountId) →
      (accountsSnapshotUpdate sampleState [accB, accC]).activeAccountId = accC.id ∧
      accC ∈ [accB, accC]) :=
  C8_active_account_failover sampleState [accB, accC] accC [accB] (by with_unfolding_all rfl)

/-! ### C4: editTrade recomputation from exits -/

/-- Modelled from the spec (the claim's words), for comparison only: the
percentage-weighted average price of a list of exits. -/
def specWeightedAvgExitPrice (exits : List Exit) : ℚ :=
  (exits.map (fun e => e.price * e.percentage)).sum / (exits.map (fun e => e.percentage)).sum

/-- Accumulating a mapped quantity by foldl equals adding the mapped sum. -/
theorem foldl_add_map {α : Type} (f : α → ℚ) (l : List α) (s : ℚ) :
    l.foldl (fun acc e => acc + f e) s = s + (l.map f).sum := by
  induction l generalizing s with
  | nil => simp
  | cons a rest ih => simp [ih]; ring

/-- Bumping by zero is the identity on accounts. -/
theorem bumpAccount_zero (a : Account) : bumpAccount a 0 = a := by
  cases a; simp [bumpAccount]

/-- Looking up the updated account id after `updateAccountBalanceLocal`
yields the bumped account. -/
theorem findAccount_updateBalance (accs : List Account) (aid : String) (delta : ℚ) :
    findAccount (updateAccountBalanceLocal accs aid delta) aid =
      (findAccount accs aid).map (fun a => bumpAccount a delta) := by
  induction accs with
  | nil => rfl
  | cons a rest ih =>
    simp only [updateAccountBalanceLocal, List.map_cons] at ih ⊢
    by_cases ha : (a.id == aid) = true
    · rw [if_pos ha]
      unfold findAccount
      simp only [List.find?_cons, ha]
      rfl
    · have hf : (a.id == aid) = false := by simpa using ha
      rw [if_neg ha]
      unfold findAccount
      simp only [List.find?_cons, hf]
      exact ih

/-- The net effect of `editTrade` on the owning account: the looked-up
account is bumped by exactly `newPnl - oldPnl` (also when the difference is
zero and the account list is left untouched). -/
theorem editTrade_findAccount (st : LedgerState) (id : String) (u : TradeUpdates)
    (oldTrade : Trade)
    (hfind : st.trades.find? (fun t => t.id == id) = some oldTrade) :
    findAccount (editTrade st id u).accounts oldTrade.accountId =
      (findAccount st.accounts oldTrade.accountId).map
        (fun a => bumpAccount a ((applyEditComputations oldTrade u).pnl - oldTrade.pnl)) := by
  simp only [editTrade, hfind]
  by_cases hd : (applyEditComputations oldTrade u).pnl - oldTrade.pnl = 0
  · rw [if_neg (by simp [hd]), hd]
    cases hfa : findAccount st.accounts oldTrade.accountId with
    | none => simp
    | some a => simp [bumpAccount_zero]
  · rw [if_pos (by simpa using hd)]
    exact findAccount_updateBalance st.accounts oldTrade.accountId _

/-- C4 counterexample: editing the sample trade with a single 50% exit at
price 2 stores exitPrice 1 (the sum of price times pct/100), while the
percentage-weighted average of the exits is 2 — the claim's weighted-average
description fails when the percentages do not total 100. -/
theorem C4_counterexample :
    ((editTrade sampleState "t1"
        { TradeUpdates.empty with exits := some [{ percentage := 50, price := 2 }] }
      ).trades.head?.map Trade.exitPrice) = some 1 ∧
    specWeightedAvgExitPrice [{ percentage := 50, price := 2 }] = 2 ∧
    (1 : ℚ) ≠ 2 := by
  refine ⟨by with_unfolding_all rfl, ?_, by norm_num⟩
  norm_num [specWeightedAvgExitPrice]

/-- C4 (amended): an edit that provides exits and leaves pnl undefined
stores pnl recomputed by the weighted partial-exit formula and moves the
owning account's balance by exactly newPnl - oldPnl; the stored exitPrice is
the sum over exits of price times percentage/100 — equal to the
percentage-weighted average only when the percentages total 100.  An edit
with an explicit pnl stores that pnl unchanged (no pnl recomputation from
price fields) and moves the balance by exactly providedPnl - oldPnl. -/
theorem C4_edit_recompute :
    (∀ (st : LedgerState) (id : String) (u : TradeUpdates) (oldTrade : Trade)
        (exits : List Exit),
      st.trades.find? (fun t => t.id == id) = some oldTrade →
      u.pnl = none → u.exits = some exits → exits ≠ [] →
      (exits.map (fun e => e.percentage)).sum > 0 →
      (applyEditComputations oldTrade u).pnl =
        calculatePnlFromExits (mergeUpdates oldTrade u).entryPrice
          (mergeUpdates oldTrade u).size (mergeUpdates oldTrade u).type exits ∧
      (applyEditComputations oldTrade u).exitPrice =
        (exits.map (fun e => e.price * (e.percentage / 100))).sum ∧
      applyEditComputations oldTrade u ∈ (editTrade st id u).trades ∧
      findAccount (editTrade st id u).accounts oldTrade.accountId =
        (findAccount st.accounts oldTrade.accountId).map
          (fun a => bumpAccount a ((applyEditComputations oldTrade u).pnl - oldTrade.pnl))) ∧
    (∀ (st : LedgerState) (id : String) (u : TradeUpdates) (oldTrade : Trade) (p : ℚ),
      st.trades.find? (fun t => t.id == id) = some oldTrade →
      u.pnl = some p →
      (applyEditComputations oldTrade u).pnl = p ∧
      findAccount (editTrade st id u).accounts oldTrade.accountId =
        (findAccount st.accounts oldTrade.accountId).map
          (fun a => bumpAccount a (p - oldTrade.pnl))) := by
  constructor
  · intro st id u oldTrade exits hfind hpnl hexits hne hpos
    have hlen : exits.length > 0 := List.length_pos.mpr hne
    have hpct : exits.foldl (fun s e => s + e.percentage) 0 > 0 := by
      rw [foldl_add_map (fun e => e.percentage) exits 0, zero_add]
      exact hpos
    have hstage : applyEditComputations oldTrade u =
        (let merged := mergeUpdates oldTrade u
         let withPnl := { merged with
           pnl := calculatePnlFromExits merged.entryPrice merged.size merged.type exits }
         let withExit := { withPnl with
           exitPrice := exits.foldl (fun s e => s + e.price * (e.percentage / 100)) 0 }
         if u.pips.isNone &&
             (truthyNum u.entryPrice || truthyNum u.exitPrice || truthyType u.type) then
           { withExit with
             pips := some (calculatePips withExit.symbol withExit.entryPrice
               withExit.exitPrice withExit.type) }
         else withExit) := by
      simp only [applyEditComputations, hpnl, hexits, Option.isNone_none, if_true, hlen,
        if_pos hpct]
    by_cases hp : (u.pips.isNone &&
        (truthyNum u.entryPrice || truthyNum u.exitPrice || truthyType u.type)) = true
    · refine ⟨?_, ?_, ?_, editTrade_findAccount st id u oldTrade hfind⟩
      · rw [hstage]; simp [hp]
      · rw [hstage]; simp only [hp, if_true]
        exact (foldl_add_map (fun e => e.price * (e.percentage / 100)) exits 0).trans
          (zero_add _)
      · have htr : (editTrade st id u).trades =
            replaceFirstTrade st.trades id (applyEditComputations oldTrade u) := by
          simp [editTrade, hfind]
        rw [htr]
        exact replaceFirstTrade_mem _ _ _ (by simp [hfind])
    · refine ⟨?_, ?_, ?_, editTrade_findAccount st id u oldTrade hfind⟩
      · rw [hstage]; simp [hp]
      · rw [hstage]; simp only [hp, if_false, Bool.false_eq_true]
        exact (foldl_add_map (fun e => e.price * (e.percentage / 100)) exits 0).trans
          (zero_add _)
      · have htr : (editTrade st id u).trades =
            replaceFirstTrade st.trades id (applyEditComputations oldTrade u) := by
          simp [editTrade, hfind]
        rw [htr]
        exact replaceFirstTrade_mem _ _ _ (by simp [hfind])
  · intro st id u oldTrade p hfind hpnl
    have hpnl2 : (applyEditComputations oldTrade u).pnl = p := by
      have hnn : u.pnl.isNone = false := by rw [hpnl]; rfl
      simp only [applyEditComputations, hnn, Bool.false_eq_true, if_false]
      by_cases hp : (u.pips.isNone &&
          (truthyNum u.entryPrice || truthyNum u.exitPrice || truthyType u.type)) = true
      · simp [hp, mergeUpdates, hpnl]
      · simp [hp, mergeUpdates, hpnl]
    refine ⟨hpnl2, ?_⟩
    rw [editTrade_findAccount st id u oldTrade hfind, hpnl2]

/-- The single-exit update used by the C4 witness. -/
def halfExitUpdates : TradeUpdates :=
  { TradeUpdates.empty with exits := some [{ percentage := 50, price := 2 }] }

/-- The explicit-pnl update used by the C4 witness. -/
def explicitPnlUpdates : TradeUpdates := { TradeUpdates.empty with pnl := some 7 }

/-- Witness for C4: both halves instantiated on the sample state — the
50%-at-2 exits edit recomputes pnl 50 and bumps the account by 45, and an
explicit pnl 7 edit stores 7 and bumps the account by 2. -/
theorem C4_witness :
    ((applyEditComputations sampleTrade halfExitUpdates).pnl =
        calculatePnlFromExits (mergeUpdates sampleTrade halfExitUpdates).entryPrice
          (mergeUpdates sampleTrade halfExitUpdates).size
          (mergeUpdates sampleTrade halfExitUpdates).type
          [{ percentage := 50, price := 2 }] ∧
      (applyEditComputations sampleTrade halfExitUpdates).exitPrice =
        (([{ percentage := 50, price := 2 }] : List Exit).map
          (fun e => e.price * (e.percentage / 100))).sum ∧
      applyEditComputations sampleTrade halfExitUpdates ∈
        (editTrade sampleState "t1" halfExitUpdates).trades ∧
      findAccount (editTrade sampleState "t1" halfExitUpdates).accounts
          sampleTrade.accountId =
        (findAccount sampleState.accounts sampleTrade.accountId).map
          (fun a => bumpAccount a
            ((applyEditComputations sampleTrade halfExitUpdates).pnl - sampleTrade.pnl))) ∧
    ((applyEditComputations sampleTrade explicitPnlUpdates).pnl = 7 ∧
      findAccount (editTrade sampleState "t1" explicitPnlUpdates).accounts
          sampleTrade.accountId =
        (findAccount sampleState.accounts sampleTrade.accountId).map
          (fun a => bumpAccount a (7 - sampleTrade.pnl))) :=
  ⟨C4_edit_recompute.1 sampleState "t1" halfExitUpdates sampleTrade
      [{ percentage := 50, price := 2 }] (by with_unfolding_all rfl) rfl rfl
      (by decide) (by norm_num),
   C4_edit_recompute.2 sampleState "t1" explicitPnlUpdates sampleTrade 7
      (by with_unfolding_all rfl) rfl⟩

/-! ### C3: the dailyStats window -/

/-- A trade closing on day 969, 31 days before the evaluation date 1000. -/
def trade31 : Trade := { sampleTrade with closeTime := 969 }

/-- C3 counterexample: with today = 1000, a trade closing 31 days ago (day
969) still contributes a bucket: the output contains a bucket dated 969
counting that trade, and has 31 buckets rather than 30.  The claim that an
out-of-window trade contributes to no bucket is false. -/
theorem C3_counterexample :
    (dailyStats 1000 [trade31]).any (fun s => s.date == 969 && s.tradesCount == 1) = true ∧
    (dailyStats 1000 [trade31]).length = 31 := by
  constructor
  · with_unfolding_all rfl
  · with_unfolding_all rfl

/-- Looking up a bucket by date. -/
def statLookup (m : List DailyStat) (d : ℤ) : Option DailyStat :=
  m.find? (fun s => s.date == d)

/-- Folding a list of trades into one bucket. -/
def accStat (s : DailyStat) (ts : List Trade) : DailyStat := ts.foldl bumpStat s

/-- Folding a trade updates exactly the bucket matching its close date,
creating it from the zero bucket when absent. -/
theorem statLookup_foldTrade_eq (m : List DailyStat) (t : Trade) :
    statLookup (foldTradeIntoStats m t) t.closeTime =
      some (bumpStat ((statLookup m t.closeTime).getD (zeroStat t.closeTime)) t) := by
  induction m with
  | nil =>
    have hb : ((bumpStat (zeroStat t.closeTime) t).date == t.closeTime) = true := by
      simp [bumpStat, zeroStat]
    simp [foldTradeIntoStats, statLookup, List.find?_cons, hb]
  | cons s rest ih =>
    by_cases hs : (s.date == t.closeTime) = true
    · have hd : s.date = t.closeTime := by simpa using hs
      have hb : ((bumpStat s t).date == t.closeTime) = true := by simp [bumpStat, hd]
      simp [foldTradeIntoStats, hs, statLookup, List.find?_cons, hb]
    · have hb : (s.date == t.closeTime) = false := by simpa using hs
      simp only [foldTradeIntoStats, hs, Bool.false_eq_true, if_false, statLookup,
        List.find?_cons, hb]
      exact ih

/-- Folding a trade leaves every other date's bucket unchanged. -/
theorem statLookup_foldTrade_ne (m : List DailyStat) (t : Trade) (d : ℤ)
    (hd : d ≠ t.closeTime) :
    statLookup (foldTradeIntoStats m t) d = statLookup m d := by
  induction m with
  | nil =>
    have hb : ((bumpStat (zeroStat t.closeTime) t).date == d) = false := by
      simpa using fun h => hd h.symm
    simp [foldTradeIntoStats, statLookup, List.find?_cons, hb]
  | cons s rest ih =>
    by_cases hs : (s.date == t.closeTime) = true
    · have hsd : (s.date == d) = false := by
        have : s.date = t.closeTime := by simpa using hs
        simpa [this] using fun h => hd h.symm
      have hbd : ((bumpStat s t).date == d) = false := hsd
      simp [foldTradeIntoStats, hs, statLookup, List.find?_cons, hbd, hsd]
    · simp only [foldTradeIntoStats, hs, Bool.false_eq_true, if_false, statLookup,
        List.find?_cons]
      by_cases hsd : (s.date == d) = true
      · simp [hsd]
      · have hf : (s.date == d) = false := by simpa using hsd
        simp only [hf]
        exact ih

/-- Folding a whole trade list: the bucket found at date `d` accumulates
exactly the trades closing on `d`, on top of the initial bucket when one
exists and of the zero bucket otherwise. -/
theorem statLookup_foldl (ts : List Trade) (m : List DailyStat) (d : ℤ) :
    statLookup (ts.foldl foldTradeIntoStats m) d =
      match statLookup m d with
      | some s => some (accStat s (ts.filter (fun t => t.closeTime == d)))
      | none =>
        if ts.filter (fun t => t.closeTime == d) = [] then none
        else some (accStat (zeroStat d) (ts.filter (fun t => t.closeTime == d))) := by
  induction ts generalizing m with
  | nil =>
    cases h : statLookup m d with
    | none => simp [h]
    | some s => simp [h, accStat]
  | cons t rest ih =>
    simp only [List.foldl_cons]
    rw [ih (foldTradeIntoStats m t)]
    by_cases ht : (t.closeTime == d) = true
    · have htd : t.closeTime = d := by simpa using ht
      have heq := statLookup_foldTrade_eq m t
      rw [htd] at heq
      rw [heq]
      cases h : statLookup m d with
      | some s =>
        simp only [h, Option.getD_some, List.filter_cons, ht, if_true]
        rfl
      | none =>
        simp only [h, Option.getD_none, List.filter_cons, ht, if_true]
        rw [if_neg (by simp)]
        rfl
    · have htd : d ≠ t.closeTime := by
        intro h
        exact absurd (by simpa using h.symm) (by simpa using ht)
      rw [statLookup_foldTrade_ne m t d htd]
      have hfil : (t :: rest).filter (fun x => x.closeTime == d) =
          rest.filter (fun x => x.closeTime == d) := by
        simp [List.filter_cons, ht]
      rw [hfil]

/-- Field bookkeeping for `accStat`: the date is kept, pnl sums, the count
adds the length. -/
theorem accStat_fields (ts : List Trade) (s : DailyStat) :
    (accStat s ts).date = s.date ∧
    (accStat s ts).pnl = s.pnl + (ts.map Trade.pnl).sum ∧
    (accStat s ts).tradesCount = s.tradesCount + ts.length := by
  induction ts generalizing s with
  | nil => simp [accStat]
  | cons t rest ih =>
    have h := ih (bumpStat s t)
    refine ⟨?_, ?_, ?_⟩
    · simpa [accStat, bumpStat] using h.1
    · have := h.2.1
      simp only [accStat, List.foldl_cons] at *
      rw [this]
      simp [bumpStat]
      ring
    · have := h.2.2
      simp only [accStat, List.foldl_cons] at *
      rw [this]
      simp [bumpStat]
      ring

/-- Membership under date-sorted insertion. -/
theorem mem_insertByDate (x s : DailyStat) (l : List DailyStat) :
    x ∈ insertByDate s l ↔ x = s ∨ x ∈ l := by
  induction l with
  | nil => simp [insertByDate]
  | cons b rest ih =>
    by_cases hb : s.date ≤ b.date
    · simp [insertByDate, hb]
    · simp [insertByDate, hb, ih]
      tauto

/-- Membership is preserved by the date sort. -/
theorem mem_sortStatsByDate (x : DailyStat) (l : List DailyStat) :
    x ∈ sortStatsByDate l ↔ x ∈ l := by
  induction l with
  | nil => simp [sortStatsByDate]
  | cons s rest ih => simp [sortStatsByDate, mem_insertByDate, ih]

/-- Date-sorted insertion preserves ascending order. -/
theorem insertByDate_pairwise (s : DailyStat) (l : List DailyStat)
    (h : List.Pairwise (fun a b => a.date ≤ b.date) l) :
    List.Pairwise (fun a b => a.date ≤ b.date) (insertByDate s l) := by
  induction l with
  | nil => simp [insertByDate]
  | cons b rest ih =>
    rcases List.pairwise_cons.mp h with ⟨hb, hrest⟩
    by_cases hd : s.date ≤ b.date
    · rw [insertByDate, if_pos hd]
      refine List.pairwise_cons.mpr ⟨?_, h⟩
      intro y hy
      rcases List.mem_cons.mp hy with rfl | hy2
      · exact hd
      · exact le_trans hd (hb y hy2)
    · rw [insertByDate, if_neg hd]
      refine List.pairwise_cons.mpr ⟨?_, ih hrest⟩
      intro y hy
      rcases (mem_insertByDate y s rest).mp hy with rfl | hy2
      · exact le_of_not_le hd
      · exact hb y hy2

/-- The date sort produces an ascending bucket list. -/
theorem sortStatsByDate_pairwise (l : List DailyStat) :
    List.Pairwise (fun a b => a.date ≤ b.date) (sortStatsByDate l) := by
  induction l with
  | nil => simp [sortStatsByDate]
  | cons s rest ih => exact insertByDate_pairwise s _ ih

/-- The initial window bucket found at any date is the zero bucket of that
date. -/
theorem statLookup_init_cases (today d : ℤ) :
    statLookup (initStats today) d = none ∨
    statLookup (initStats today) d =
      some (zeroStat d) := by
  cases h : statLookup (initStats today) d with
  | none => exact Or.inl rfl
  | some s =>
    refine Or.inr ?_
    have hmem := List.mem_of_find?_eq_some h
    have hpred := List.find?_some h
    rcases List.mem_map.mp hmem with ⟨i, _, rfl⟩
    have : today - i = d := by simpa [zeroStat] using hpred
    rw [this]

/-- Every day of the 30-day window has an initial bucket. -/
theorem statLookup_init_window (today : ℤ) (i : ℕ) (hi : i < 30) :
    statLookup (initStats today) (today - i) =
      some (zeroStat (today - i)) := by
  rcases statLookup_init_cases today (today - i) with h | h
  · exfalso
    have : statLookup (initStats today)
        (today - i) ≠ none := by
      unfold statLookup
      intro hn
      rw [List.find?_eq_none] at hn
      exact hn (zeroStat (today - i))
        (List.mem_map.mpr ⟨i, List.mem_range.mpr hi, rfl⟩) (by simp [zeroStat])
    exact this h
  · exact h

/-- C3 (amended): dailyStats always contains one bucket per day of the
trailing 30-day window, and every trade — inside or outside the window — is
folded into a bucket matching its close date (out-of-window trades create
their own bucket rather than being dropped); every bucket dated `d` carries
the pnl sum and count of the trades closing on `d`, and the output is sorted
ascending by date. -/
theorem C3_daily_stats_window (today : ℤ) (trades : List Trade) :
    (∀ t ∈ trades, ∃ s ∈ dailyStats today trades,
        s.date = t.closeTime ∧
        s.pnl = ((trades.filter (fun x => x.closeTime == t.closeTime)).map Trade.pnl).sum ∧
        s.tradesCount = (trades.filter (fun x => x.closeTime == t.closeTime)).length) ∧
    (∀ i : ℕ, i < 30 → ∃ s ∈ dailyStats today trades,
        s.date = today - i ∧
        s.pnl = ((trades.filter (fun x => x.closeTime == today - (i : ℤ))).map Trade.pnl).sum ∧
        s.tradesCount = (trades.filter (fun x => x.closeTime == today - (i : ℤ))).length) ∧
    List.Pairwise (fun a b => a.date ≤ b.date) (dailyStats today trades) := by
  have key : ∀ d : ℤ,
      statLookup (trades.foldl foldTradeIntoStats
        (initStats today)) d = some (accStat (zeroStat d)
          (trades.filter (fun x => x.closeTime == d))) ∨
      (statLookup (initStats today) d = none ∧
        trades.filter (fun x => x.closeTime == d) = []) := by
    intro d
    rw [statLookup_foldl]
    rcases statLookup_init_cases today d with h | h
    · rw [h]
      by_cases hf : trades.filter (fun x => x.closeTime == d) = []
      · exact Or.inr ⟨rfl, hf⟩
      · rw [if_neg hf]
        exact Or.inl rfl
    · rw [h]
      exact Or.inl rfl
  have tomem : ∀ d : ℤ,
      statLookup (trades.foldl foldTradeIntoStats
        (initStats today)) d =
        some (accStat (zeroStat d) (trades.filter (fun x => x.closeTime == d))) →
      ∃ s ∈ dailyStats today trades,
        s.date = d ∧
        s.pnl = ((trades.filter (fun x => x.closeTime == d)).map Trade.pnl).sum ∧
        s.tradesCount = (trades.filter (fun x => x.closeTime == d)).length := by
    intro d h
    have hmem := List.mem_of_find?_eq_some h
    have hfields := accStat_fields (trades.filter (fun x => x.closeTime == d)) (zeroStat d)
    refine ⟨{ accStat (zeroStat d) (trades.filter (fun x => x.closeTime == d)) with
        winRate := if (trades.filter (fun t => t.closeTime ==
            (accStat (zeroStat d) (trades.filter (fun x => x.closeTime == d))).date)).length > 0
          then ((((trades.filter (fun t => t.closeTime ==
              (accStat (zeroStat d) (trades.filter (fun x => x.closeTime == d))).date)).filter
                (fun t => t.pnl > 0)).length : ℚ) /
            ((trades.filter (fun t => t.closeTime ==
              (accStat (zeroStat d) (trades.filter (fun x => x.closeTime == d))).date)).length : ℚ))
            * 100
          else 0 }, ?_, ?_, ?_, ?_⟩
    · unfold dailyStats
      rw [mem_sortStatsByDate]
      exact List.mem_map.mpr ⟨_, hmem, rfl⟩
    · simpa [zeroStat] using hfields.1
    · simpa [zeroStat] using hfields.2.1
    · simpa [zeroStat] using hfields.2.2
  refine ⟨?_, ?_, ?_⟩
  · intro t ht
    rcases key t.closeTime with h | ⟨_, hf⟩
    · exact tomem t.closeTime h
    · exfalso
      have : t ∈ trades.filter (fun x => x.closeTime == t.closeTime) :=
        List.mem_filter.mpr ⟨ht, by simp⟩
      rw [hf] at this
      simp at this
  · intro i hi
    rcases key (today - i) with h | ⟨hnone, _⟩
    · exact tomem (today - i) h
    · exact absurd (statLookup_init_window today i hi) (by rw [hnone]; intro h2; cases h2)
  · unfold dailyStats
    exact sortStatsByDate_pairwise _

/-- Witness for C3: the amended statement instantiated at today = 1000 with
one trade closing on day 1000 and one closing on day 971 (29 days ago): both
trades get a bucket, the window days exist, and the output is sorted. -/
theorem C3_witness :
    ∃ s ∈ dailyStats 1000 [{ sampleTrade with closeTime := 1000 },
        { sampleTrade with id := "t2", closeTime := 971 }],
      s.date = (971 : ℤ) ∧
      s.pnl = ((([{ sampleTrade with closeTime := 1000 },
          { sampleTrade with id := "t2", closeTime := 971 }] : List Trade).filter
            (fun x => x.closeTime == (971 : ℤ))).map Trade.pnl).sum ∧
      s.tradesCount = (([{ sampleTrade with closeTime := 1000 },
          { sampleTrade with id := "t2", closeTime := 971 }] : List Trade).filter
            (fun x => x.closeTime == (971 : ℤ))).length :=
  (C3_daily_stats_window 1000 _).1 { sampleTrade with id := "t2", closeTime := 971 }
    (by simp)

/-! ### C6: determinism of the metrics derivations -/

/-- The per-trade fields read by `dailyStats`: close date, pnl, `rMultiple
|| 0` and `pips || 0`. -/
def projD (t : Trade) : ℤ × ℚ × ℚ × ℚ :=
  (t.closeTime, t.pnl, t.rMultiple.getD 0, t.pips.getD 0)

/-- The per-trade fields read by `performanceMetrics`: close date and pnl. -/
def projP (t : Trade) : ℤ × ℚ := (t.closeTime, t.pnl)

/-- `bumpStat` expressed on the projected fields. -/
def bumpStatP (s : DailyStat) (p : ℤ × ℚ × ℚ × ℚ) : DailyStat :=
  { s with pnl := s.pnl + p.2.1,
           tradesCount := s.tradesCount + 1,
           rMultiple := s.rMultiple + p.2.2.1,
           pips := s.pips + p.2.2.2 }

/-- `foldTradeIntoStats` expressed on the projected fields. -/
def foldStatP : List DailyStat → (ℤ × ℚ × ℚ × ℚ) → List DailyStat
  | [], p => [bumpStatP (zeroStat p.1) p]
  | s :: rest, p =>
    if s.date == p.1 then bumpStatP s p :: rest else s :: foldStatP rest p

/-- `dailyStats` expressed on the projected fields. -/
def dailyStatsP (today : ℤ) (ps : List (ℤ × ℚ × ℚ × ℚ)) : List DailyStat :=
  let init : List DailyStat := initStats today
  let folded := ps.foldl foldStatP init
  let result := folded.map (fun stat =>
    let dayPs := ps.filter (fun p => p.1 == stat.date)
    let wins := (dayPs.filter (fun p => p.2.1 > 0)).length
    { stat with winRate :=
        if dayPs.length > 0 then ((wins : ℚ) / (dayPs.length : ℚ)) * 100 else 0 })
  sortStatsByDate result

/-- Filtering after a map commutes with mapping after the matching filter. -/
theorem filter_map_comm {α β : Type} (f : α → β) (p : α → Bool) (q : β → Bool)
    (h : ∀ a, q (f a) = p a) (l : List α) :
    (l.map f).filter q = (l.filter p).map f := by
  induction l with
  | nil => rfl
  | cons a rest ih =>
    rw [List.map_cons, List.filter_cons, List.filter_cons, h a]
    cases hp : p a
    · simpa using ih
    · simpa using ih

/-- Folding a trade only reads its projected fields. -/
theorem foldTrade_eq_foldStatP (m : List DailyStat) (t : Trade) :
    foldTradeIntoStats m t = foldStatP m (projD t) := by
  induction m with
  | nil => rfl
  | cons s rest ih =>
    by_cases hs : (s.date == t.closeTime) = true
    · simp [foldTradeIntoStats, foldStatP, projD, hs, bumpStat, bumpStatP]
    · simp only [foldTradeIntoStats, foldStatP, projD, hs, Bool.false_eq_true, if_false]
      rw [ih]
      rfl

/-- `dailyStats` factors through the projection of its trades. -/
theorem dailyStats_eq_proj (today : ℤ) (ts : List Trade) :
    dailyStats today ts = dailyStatsP today (ts.map projD) := by
  have hfold : (ts.map projD).foldl foldStatP (initStats today) =
      ts.foldl foldTradeIntoStats (initStats today) := by
    rw [List.foldl_map]
    congr 1
    funext m t
    exact (foldTrade_eq_foldStatP m t).symm
  have hday : ∀ d : ℤ, (ts.map projD).filter (fun p => p.1 == d) =
      (ts.filter (fun t => t.closeTime == d)).map projD := fun d =>
    filter_map_comm projD _ _ (fun a => rfl) ts
  have hwins : ∀ l : List Trade, (l.map projD).filter (fun p => p.2.1 > 0) =
      (l.filter (fun t => t.pnl > 0)).map projD := fun l =>
    filter_map_comm projD _ _ (fun a => rfl) l
  unfold dailyStats dailyStatsP
  simp only [hfold, hday, hwins, List.length_map]

/-- Pair insertion by first component, mirroring `insertByClose` on the
projected fields. -/
def insertPairByFst (p : ℤ × ℚ) : List (ℤ × ℚ) → List (ℤ × ℚ)
  | [] => [p]
  | q :: rest => if p.1 ≤ q.1 then p :: q :: rest else q :: insertPairByFst p rest

/-- Pair sort by first component, mirroring `sortTradesByClose`. -/
def sortPairsByFst : List (ℤ × ℚ) → List (ℤ × ℚ)
  | [] => []
  | p :: rest => insertPairByFst p (sortPairsByFst rest)

/-- `performanceMetrics` expressed on the projected fields. -/
def performanceMetricsP (ps : List (ℤ × ℚ)) : PerfMetrics :=
  let grossProfit : ℚ := ((ps.filter (fun p => p.2 > 0)).map Prod.snd).sum
  let grossLoss : ℚ := ((ps.filter (fun p => p.2 < 0)).map (fun p => |p.2|)).sum
  let wins := (ps.filter (fun p => p.2 > 0)).length
  let losses := (ps.filter (fun p => p.2 < 0)).length
  let breakeven := (ps.filter (fun p => ¬ (p.2 > 0) ∧ ¬ (p.2 < 0))).length
  let profitFactor : ℚ := if grossLoss = 0 then grossProfit else grossProfit / grossLoss
  let winRate : ℚ := if ps.length > 0 then ((wins : ℚ) / (ps.length : ℚ)) * 100 else 0
  let avgWin : ℚ := if wins > 0 then grossProfit / (wins : ℚ) else 0
  let avgLoss : ℚ := if losses > 0 then grossLoss / (losses : ℚ) else 0
  let expectancy : ℚ :=
    (winRate / 100 * avgWin) - (((losses : ℚ) / (ps.length : ℚ)) * avgLoss)
  let sortedPnls := (sortPairsByFst ps).map Prod.snd
  let streaks := maxStreaks sortedPnls
  { profitFactor := roundTo2 profitFactor
    expectancy := roundTo2 expectancy
    winRate := roundTo1 winRate
    lossRate :=
      if ps.length > 0 then roundTo1 (((losses : ℚ) / (ps.length : ℚ)) * 100) else 0
    breakevenRate :=
      if ps.length > 0 then roundTo1 (((breakeven : ℚ) / (ps.length : ℚ)) * 100) else 0
    avgWin := roundTo2 avgWin
    avgLoss := roundTo2 avgLoss
    totalTrades := ps.length
    maxConsecutiveWins := streaks.1
    maxConsecutiveLosses := streaks.2
    maxDrawdown := roundTo2 (maxDrawdownOf sortedPnls) }

/-- Sorted insertion by close time only reads the projected fields. -/
theorem insertByClose_map_proj (t : Trade) (l : List Trade) :
    (insertByClose t l).map projP = insertPairByFst (projP t) (l.map projP) := by
  induction l with
  | nil => rfl
  | cons u rest ih =>
    show ((if t.closeTime ≤ u.closeTime then t :: u :: rest
           else u :: insertByClose t rest).map projP) =
      (if t.closeTime ≤ u.closeTime then projP t :: projP u :: rest.map projP
       else projP u :: insertPairByFst (projP t) (rest.map projP))
    by_cases hu : t.closeTime ≤ u.closeTime
    · rw [if_pos hu, if_pos hu]
      rfl
    · rw [if_neg hu, if_neg hu, List.map_cons, ih]

/-- The close-time sort only reads the projected fields. -/
theorem sortTradesByClose_map_proj (ts : List Trade) :
    (sortTradesByClose ts).map projP = sortPairsByFst (ts.map projP) := by
  induction ts with
  | nil => rfl
  | cons t rest ih =>
    simp only [sortTradesByClose, sortPairsByFst, List.map_cons]
    rw [← ih]
    exact insertByClose_map_proj t (sortTradesByClose rest)

/-- `performanceMetrics` factors through the projection of its trades. -/
theorem performanceMetrics_eq_proj (ts : List Trade) :
    performanceMetrics ts = performanceMetricsP (ts.map projP) := by
  have hwinf : (ts.map projP).filter (fun p => p.2 > 0) =
      (ts.filter (fun t => t.pnl > 0)).map projP :=
    filter_map_comm projP _ _ (fun a => rfl) ts
  have hlossf : (ts.map projP).filter (fun p => p.2 < 0) =
      (ts.filter (fun t => t.pnl < 0)).map projP :=
    filter_map_comm projP _ _ (fun a => rfl) ts
  have hbef : (ts.map projP).filter (fun p => ¬ (p.2 > 0) ∧ ¬ (p.2 < 0)) =
      (ts.filter (fun t => ¬ (t.pnl > 0) ∧ ¬ (t.pnl < 0))).map projP :=
    filter_map_comm projP _ _ (fun a => rfl) ts
  have hsnd : ∀ l : List Trade, (l.map projP).map Prod.snd = l.map Trade.pnl := by
    intro l
    rw [List.map_map]
    rfl
  have habs : ∀ l : List Trade,
      (l.map projP).map (fun p => |p.2|) = l.map (fun t => |t.pnl|) := by
    intro l
    rw [List.map_map]
    rfl
  have hsort2 : sortPairsByFst (ts.map projP) = (sortTradesByClose ts).map projP :=
    (sortTradesByClose_map_proj ts).symm
  unfold performanceMetrics performanceMetricsP
  simp only [hwinf, hlossf, hbef, hsort2, hsnd, habs, List.length_map]

/-- JS truthiness of the optional-chained `t.behavior?.risk.isAdheredToPlan`
read by `trackerScore`. -/
def adheredFlag (t : Trade) : Bool :=
  match t.behavior with
  | some b => b.risk.isAdheredToPlan
  | none => false

/-- JS truthiness of the optional-chained `t.behavior?.risk.didMoveStopLoss`
read by `trackerScore`. -/
def movedSlFlag (t : Trade) : Bool :=
  match t.behavior with
  | some b => b.risk.didMoveStopLoss
  | none => false

/-- The revenge-trading test of `trackerScore`:
`t.psychology === 'REVENGE' || t.behavior?.emotions.entry.includes('REVENGE')`. -/
def revengeFlag (t : Trade) : Bool :=
  t.psychology == some "REVENGE" ||
    (match t.behavior with
     | some b => b.emotions.entry.contains "REVENGE"
     | none => false)

/-- The `trackerScore` memo of Analysis.tsx (lines 17-43): 0 for an empty
collection, else 100 minus weighted penalties — 40 times the non-adherence
rate, 30 times the moved-stop-loss rate, 30 times the revenge rate —
rounded (`Math.round`) and floored at 0 (`Math.max(0, ...)`). -/
def trackerScore (trades : List Trade) : ℚ :=
  if trades.length = 0 then 0
  else
    let adherenceCount := (trades.filter adheredFlag).length
    let stopLossMovedCount := (trades.filter movedSlFlag).length
    let revengeCount := (trades.filter revengeFlag).length
    let adherenceRate : ℚ := (adherenceCount : ℚ) / (trades.length : ℚ)
    let slMovedRate : ℚ := (stopLossMovedCount : ℚ) / (trades.length : ℚ)
    let revengeRate : ℚ := (revengeCount : ℚ) / (trades.length : ℚ)
    let score : ℚ := 100 - (1 - adherenceRate) * 40 - slMovedRate * 30 - revengeRate * 30
    max 0 (round score : ℚ)

/-- The per-trade fields read by `trackerScore`: the three behavioural
flags. -/
def projS (t : Trade) : Bool × Bool × Bool :=
  (adheredFlag t, movedSlFlag t, revengeFlag t)

/-- The `getDay` weekday of a minute timestamp (origin Sunday midnight). -/
def weekdayOf (m : ℤ) : ℕ := ((m / 1440) % 7).toNat

/-- The `getHours` hour of a minute timestamp. -/
def hourOf (m : ℤ) : ℕ := ((m % 1440) / 60).toNat

/-- Fold one trade's pnl into a day-of-week or hour-of-day slot
(`dayStats[day].pnl += t.pnl; dayStats[day].trades += 1`). -/
def bumpSlot (slots : List (ℚ × ℕ)) (i : ℕ) (pnl : ℚ) : List (ℚ × ℕ) :=
  slots.set i ((slots.getD i (0, 0)).1 + pnl, (slots.getD i (0, 0)).2 + 1)

/-- The record returned by the `timeAnalysis` memo of Analysis.tsx (lines
121-153): seven day-of-week slots, twenty-four hour-of-day slots (each a
pnl sum and a trade count; the display names of the slots are their
indices and are omitted), and the rounded average trade duration. -/
structure TimeAnalysis where
  dayStats : List (ℚ × ℕ)
  hourStats : List (ℚ × ℕ)
  avgDuration : ℚ
deriving DecidableEq, Repr

/-- The `forEach` body of `timeAnalysis` (lines 129-148): bump the weekday
and hour slots of the trade's `openTime`, and accumulate the open-to-close
duration in minutes when `closeTime` is truthy (`closeTime` being modelled
at day granularity, its minute value is the start of its day). -/
def timeStep (acc : List (ℚ × ℕ) × List (ℚ × ℕ) × ℤ × ℕ) (t : Trade) :
    List (ℚ × ℕ) × List (ℚ × ℕ) × ℤ × ℕ :=
  let (dayStats, hourStats, totalDuration, durationCount) := acc
  let dayStats := bumpSlot dayStats (weekdayOf t.openTime) t.pnl
  let hourStats := bumpSlot hourStats (hourOf t.openTime) t.pnl
  if t.closeTime ≠ 0 then
    (dayStats, hourStats, totalDuration + (t.closeTime * 1440 - t.openTime),
      durationCount + 1)
  else (dayStats, hourStats, totalDuration, durationCount)

/-- The zeroed slot arrays and duration accumulators of `timeAnalysis`
(lines 122-127). -/
def timeInit : List (ℚ × ℕ) × List (ℚ × ℕ) × ℤ × ℕ :=
  (List.replicate 7 (0, 0), List.replicate 24 (0, 0), 0, 0)

/-- The `timeAnalysis` memo of Analysis.tsx (lines 121-153). -/
def timeAnalysis (trades : List Trade) : TimeAnalysis :=
  let final := trades.foldl timeStep timeInit
  { dayStats := final.1
    hourStats := final.2.1
    avgDuration :=
      if final.2.2.2 > 0 then (round ((final.2.2.1 : ℚ) / (final.2.2.2 : ℚ)) : ℚ) else 0 }

/-- The per-trade fields read by `timeAnalysis`: open time, close time and
pnl. -/
def projH (t : Trade) : ℤ × ℤ × ℚ := (t.openTime, t.closeTime, t.pnl)

/-- `timeStep` expressed on the projected fields. -/
def timeStepP (acc : List (ℚ × ℕ) × List (ℚ × ℕ) × ℤ × ℕ) (p : ℤ × ℤ × ℚ) :
    List (ℚ × ℕ) × List (ℚ × ℕ) × ℤ × ℕ :=
  let (dayStats, hourStats, totalDuration, durationCount) := acc
  let dayStats := bumpSlot dayStats (weekdayOf p.1) p.2.2
  let hourStats := bumpSlot hourStats (hourOf p.1) p.2.2
  if p.2.1 ≠ 0 then
    (dayStats, hourStats, totalDuration + (p.2.1 * 1440 - p.1), durationCount + 1)
  else (dayStats, hourStats, totalDuration, durationCount)

/-- `trackerScore` only reads the three behavioural flags of each trade. -/
theorem trackerScore_eq_of_proj (ts1 ts2 : List Trade)
    (h : ts1.map projS = ts2.map projS) : trackerScore ts1 = trackerScore ts2 := by
  have hlen : ts1.length = ts2.length := by
    rw [← List.length_map ts1 projS, h, List.length_map]
  have hcount : ∀ (q : Bool × Bool × Bool → Bool) (p : Trade → Bool),
      (∀ a : Trade, q (projS a) = p a) →
      (ts1.filter p).length = (ts2.filter p).length := by
    intro q p hq
    have e : ∀ ts : List Trade,
        (ts.filter p).length = ((ts.map projS).filter q).length := by
      intro ts
      rw [filter_map_comm projS p q hq ts, List.length_map]
    rw [e ts1, e ts2, h]
  have h1 := hcount (fun p => p.1) adheredFlag (fun a => rfl)
  have h2 := hcount (fun p => p.2.1) movedSlFlag (fun a => rfl)
  have h3 := hcount (fun p => p.2.2) revengeFlag (fun a => rfl)
  unfold trackerScore
  simp only [hlen, h1, h2, h3]

/-- `timeAnalysis` only reads each trade's open time, close time and pnl. -/
theorem timeAnalysis_eq_of_proj (ts1 ts2 : List Trade)
    (h : ts1.map projH = ts2.map projH) : timeAnalysis ts1 = timeAnalysis ts2 := by
  have hfold : ∀ ts : List Trade,
      ts.foldl timeStep timeInit = (ts.map projH).foldl timeStepP timeInit := by
    intro ts
    rw [List.foldl_map]
    congr 1
  unfold timeAnalysis
  simp only [hfold, h]

/-- C6 counterexample: `dailyStats` reads the evaluation-time clock — over
the identical (empty) trade collection, evaluating at day 0 and at day 60
yields different outputs, so the derivation is not a function of the trade
collection alone. -/
theorem C6_counterexample :
    dailyStats 0 ([] : List Trade) ≠ dailyStats 60 ([] : List Trade) := by
  decide

/-- C6 (amended): every Metrics Engine derivation named by the claim —
DailyStats, the aggregate performance metrics, the tracker score and the
time-of-day/day-of-week aggregation — is deterministic in its explicit
inputs and reads no per-trade state beyond a fixed projection:
`dailyStats` depends only on the evaluation date and each trade's
(closeTime, pnl, rMultiple, pips), `performanceMetrics` only on each
trade's (closeTime, pnl), `trackerScore` only on each trade's three
behavioural flags, and `timeAnalysis` only on each trade's (openTime,
closeTime, pnl).  Any two trade collections agreeing on the respective
projections yield identical outputs; `dailyStats` alone additionally reads
the current date to anchor its trailing window. -/
theorem C6_metrics_deterministic :
    (∀ (today : ℤ) (ts1 ts2 : List Trade), ts1.map projD = ts2.map projD →
        dailyStats today ts1 = dailyStats today ts2) ∧
    (∀ ts1 ts2 : List Trade, ts1.map projP = ts2.map projP →
        performanceMetrics ts1 = performanceMetrics ts2) ∧
    (∀ ts1 ts2 : List Trade, ts1.map projS = ts2.map projS →
        trackerScore ts1 = trackerScore ts2) ∧
    (∀ ts1 ts2 : List Trade, ts1.map projH = ts2.map projH →
        timeAnalysis ts1 = timeAnalysis ts2) := by
  refine ⟨?_, ?_, ?_, ?_⟩
  · intro today ts1 ts2 h
    rw [dailyStats_eq_proj, dailyStats_eq_proj, h]
  · intro ts1 ts2 h
    rw [performanceMetrics_eq_proj, performanceMetrics_eq_proj, h]
  · exact trackerScore_eq_of_proj
  · exact timeAnalysis_eq_of_proj

/-- A variant of the sample trade differing only in fields the metrics
derivations never read. -/
def sampleTradeRenamed : Trade :=
  { sampleTrade with id := "zz", symbol := "GBPUSD", entryPrice := 9 }

/-- Witness for C6: all four derivations agree on two one-trade collections
that differ only in unread fields. -/
theorem C6_witness :
    dailyStats 1000 [sampleTrade] = dailyStats 1000 [sampleTradeRenamed] ∧
    performanceMetrics [sampleTrade] = performanceMetrics [sampleTradeRenamed] ∧
    trackerScore [sampleTrade] = trackerScore [sampleTradeRenamed] ∧
    timeAnalysis [sampleTrade] = timeAnalysis [sampleTradeRenamed] :=
  ⟨C6_metrics_deterministic.1 1000 [sampleTrade] [sampleTradeRenamed]
      (by with_unfolding_all rfl),
   C6_metrics_deterministic.2.1 [sampleTrade] [sampleTradeRenamed]
      (by with_unfolding_all rfl),
   C6_metrics_deterministic.2.2.1 [sampleTrade] [sampleTradeRenamed]
      (by with_unfolding_all rfl),
   C6_metrics_deterministic.2.2.2 [sampleTrade] [sampleTradeRenamed]
      (by with_unfolding_all rfl)⟩

/-! ### C1: the balance invariant over operation sequences -/

/-- A legacy trade whose accountId is missing (the falsy empty string),
as handled by the `trade.accountId || activeAccountId` fallback. -/
def legacyTrade : Trade := { sampleTrade with accountId := "" }

/-- A state in which account A has balance 100, owns no trades, and the
ledger holds one legacy trade without an accountId. -/
def legacyState : LedgerState :=
  { accounts := [sampleAccount], activeAccountId := "A", trades := [legacyTrade] }

/-- C1 counterexample: starting from a state in which account A has balance
100 and owns no trades (the only ledger trade has the empty legacy
accountId), the single operation `deleteTrades ["t1"]` charges the legacy
trade's pnl to the active account A, leaving balance 95 while the sum of
pnl over A's trades is still 0 — so balance ≠ B0 + ownedPnlSum. -/
theorem C1_counterexample :
    (∀ t ∈ legacyState.trades, t.accountId ≠ "A") ∧
    ((findAccount legacyState.accounts "A").map Account.balance = some 100) ∧
    ((findAccount (applyOps legacyState [Op.del ["t1"]]).accounts "A").map
      Account.balance = some 95) ∧
    ownedPnlSum (applyOps legacyState [Op.del ["t1"]]).trades "A" = 0 ∧
    (95 : ℚ) ≠ 100 + 0 := by
  refine ⟨by decide, by with_unfolding_all rfl, by with_unfolding_all rfl,
    by with_unfolding_all rfl, by norm_num⟩

/-- The balance invariant for one account id: every stored account carrying
that id has balance B0 plus the pnl sum of the trades it owns. -/
def BalanceInv (aid : String) (B0 : ℚ) (st : LedgerState) : Prop :=
  ∀ acc ∈ st.accounts, acc.id = aid → acc.balance = B0 + ownedPnlSum st.trades aid

/-- Splitting the owned-pnl sum at a cons cell. -/
theorem ownedPnlSum_cons (t : Trade) (ts : List Trade) (aid : String) :
    ownedPnlSum (t :: ts) aid =
      (if (t.accountId == aid) = true then t.pnl else 0) + ownedPnlSum ts aid := by
  by_cases h : (t.accountId == aid) = true
  · simp [ownedPnlSum, List.filter_cons, h]
  · simp [ownedPnlSum, List.filter_cons, h]

/-- A ledger owning no trades for the id has owned-pnl sum zero. -/
theorem ownedPnlSum_eq_zero (ts : List Trade) (aid : String)
    (h : ∀ t ∈ ts, t.accountId ≠ aid) : ownedPnlSum ts aid = 0 := by
  unfold ownedPnlSum
  rw [List.filter_eq_nil_iff.mpr (fun t ht => by simpa using h t ht)]
  rfl

/-- Every member of the updated account list is a member of the original
list, bumped when its id matches. -/
theorem mem_updateBalance_cases (accs : List Account) (x : String) (delta : ℚ)
    (acc2 : Account) (h : acc2 ∈ updateAccountBalanceLocal accs x delta) :
    ∃ acc ∈ accs, acc2 = (if (acc.id == x) = true then bumpAccount acc delta else acc) := by
  rcases List.mem_map.mp h with ⟨acc, hmem, heq⟩
  refine ⟨acc, hmem, ?_⟩
  rw [← heq]
  by_cases hx : (acc.id == x) = true
  · simp [hx, bumpAccount]
  · simp [hx]

/-- The step case of the invariant for `addTrade`: adding any trade owned by
the active account while bumping the active account by its pnl preserves the
invariant. -/
theorem addTrade_inv (st : LedgerState) (newId : String) (d : AddTradeInput)
    (aid : String) (B0 : ℚ) (hinv : BalanceInv aid B0 st) :
    BalanceInv aid B0 (addTrade st newId d) := by
  intro acc2 hmem hid
  have htr : (addTrade st newId d).trades = builtTrade st newId d :: st.trades := rfl
  have hacc : (addTrade st newId d).accounts =
      updateAccountBalanceLocal st.accounts st.activeAccountId (builtTrade st newId d).pnl :=
    rfl
  have haid : (builtTrade st newId d).accountId = st.activeAccountId := rfl
  rw [hacc] at hmem
  rw [htr, ownedPnlSum_cons, haid]
  rcases mem_updateBalance_cases _ _ _ _ hmem with ⟨acc, hacc2, rfl⟩
  by_cases hx : (acc.id == st.activeAccountId) = true
  · rw [if_pos hx] at hid ⊢
    have hid2 : acc.id = aid := hid
    have hactive : st.activeAccountId = aid := by
      rw [← hid2]
      exact (beq_iff_eq.mp hx).symm
    rw [if_pos (by simpa using hactive), show (bumpAccount acc (builtTrade st newId d).pnl).balance
        = acc.balance + (builtTrade st newId d).pnl from rfl, hinv acc hacc2 hid2]
    ring
  · rw [if_neg hx] at hid ⊢
    have hactive : ¬ st.activeAccountId = aid := by
      intro he
      exact hx (beq_iff_eq.mpr (by rw [hid, he]))
    rw [if_neg (by simpa using hactive), hinv acc hacc2 hid]
    ring

/-- The edit recomputation never touches the trade's owning account id. -/
theorem applyEditComputations_accountId (old : Trade) (u : TradeUpdates) :
    (applyEditComputations old u).accountId = old.accountId := by
  unfold applyEditComputations
  cases hx : u.exits <;>
    simp [apply_ite Trade.accountId, mergeUpdates]

/-- Replacing the first trade matching an id shifts the owned-pnl sum by the
pnl difference when the replaced trade is owned (the replacement must keep
the account id). -/
theorem ownedPnlSum_replaceFirst (ts : List Trade) (id : String) (old nt : Trade)
    (aid : String) (hfind : ts.find? (fun t => t.id == id) = some old)
    (hacc : nt.accountId = old.accountId) :
    ownedPnlSum (replaceFirstTrade ts id nt) aid =
      ownedPnlSum ts aid +
        (if (old.accountId == aid) = true then nt.pnl - old.pnl else 0) := by
  induction ts with
  | nil => simp [List.find?] at hfind
  | cons t rest ih =>
    by_cases ht : (t.id == id) = true
    · simp only [List.find?_cons, ht] at hfind
      rw [Option.some_inj] at hfind
      subst hfind
      rw [show replaceFirstTrade (t :: rest) id nt = nt :: rest from by
          simp [replaceFirstTrade, ht],
        ownedPnlSum_cons, ownedPnlSum_cons, hacc]
      by_cases ha : (t.accountId == aid) = true
      · rw [if_pos ha, if_pos ha, if_pos ha]
        ring
      · rw [if_neg ha, if_neg ha, if_neg ha]
        ring
    · have hf : (t.id == id) = false := by simpa using ht
      simp only [List.find?_cons, hf] at hfind
      rw [show replaceFirstTrade (t :: rest) id nt = t :: replaceFirstTrade rest id nt from by
          simp [replaceFirstTrade, ht],
        ownedPnlSum_cons, ownedPnlSum_cons, ih hfind]
      ring

/-- The step case of the invariant for `editTrade`. -/
theorem editTrade_inv (st : LedgerState) (id : String) (u : TradeUpdates)
    (aid : String) (B0 : ℚ) (hinv : BalanceInv aid B0 st) :
    BalanceInv aid B0 (editTrade st id u) := by
  cases hfind : st.trades.find? (fun t => t.id == id) with
  | none =>
    have : editTrade st id u = st := by simp [editTrade, hfind]
    rw [this]
    exact hinv
  | some old =>
    intro acc2 hmem hid
    have htr : (editTrade st id u).trades =
        replaceFirstTrade st.trades id (applyEditComputations old u) := by
      simp [editTrade, hfind]
    have hsum := ownedPnlSum_replaceFirst st.trades id old (applyEditComputations old u)
      aid hfind (applyEditComputations_accountId old u)
    have hacc : (editTrade st id u).accounts =
        (if (applyEditComputations old u).pnl - old.pnl ≠ 0 then
          updateAccountBalanceLocal st.accounts old.accountId
            ((applyEditComputations old u).pnl - old.pnl)
        else st.accounts) := by
      simp [editTrade, hfind]
    rw [htr, hsum]
    rw [hacc] at hmem
    by_cases hd : (applyEditComputations old u).pnl - old.pnl = 0
    · rw [if_neg (by simpa using hd)] at hmem
      rw [hinv acc2 hmem hid]
      by_cases ha : (old.accountId == aid) = true
      · rw [if_pos ha, hd]
        ring
      · rw [if_neg ha]
        ring
    · rw [if_pos hd] at hmem
      rcases mem_updateBalance_cases _ _ _ _ hmem with ⟨acc, hacc2, rfl⟩
      by_cases hx : (acc.id == old.accountId) = true
      · rw [if_pos hx] at hid ⊢
        have hid2 : acc.id = aid := hid
        have howner : old.accountId = aid := by
          rw [← hid2]
          exact (beq_iff_eq.mp hx).symm
        rw [if_pos (by simpa using howner),
          show (bumpAccount acc ((applyEditComputations old u).pnl - old.pnl)).balance
            = acc.balance + ((applyEditComputations old u).pnl - old.pnl) from rfl,
          hinv acc hacc2 hid2]
        ring
      · rw [if_neg hx] at hid ⊢
        have howner : ¬ old.accountId = aid := by
          intro he
          exact hx (beq_iff_eq.mpr (by rw [hid, he]))
        rw [if_neg (by simpa using howner), hinv acc hacc2 hid]
        ring

/-- The net delta an account id receives from a pnl-changes map. -/
def changeFor (m : List (String × ℚ)) (aid : String) : ℚ :=
  ((m.filter (fun kv => kv.1 == aid)).map Prod.snd).sum

/-- Splitting `changeFor` at a cons cell. -/
theorem changeFor_cons (k : String) (w : ℚ) (m : List (String × ℚ)) (aid : String) :
    changeFor ((k, w) :: m) aid =
      (if (k == aid) = true then w else 0) + changeFor m aid := by
  by_cases h : (k == aid) = true
  · simp [changeFor, List.filter_cons, h]
  · simp [changeFor, List.filter_cons, h]

/-- Inserting into the pnl-changes map adds the delta to the matching id. -/
theorem changeFor_addPnlChange (m : List (String × ℚ)) (k : String) (v : ℚ)
    (aid : String) :
    changeFor (addPnlChange m k v) aid =
      changeFor m aid + (if (k == aid) = true then v else 0) := by
  induction m with
  | nil =>
    simp only [addPnlChange, changeFor_cons]
    by_cases h : (k == aid) = true
    · simp [changeFor, h]
    · simp [changeFor, h]
  | cons kv rest ih =>
    rcases kv with ⟨k2, w⟩
    by_cases h2 : (k2 == k) = true
    · rw [show addPnlChange ((k2, w) :: rest) k v = (k2, w + v) :: rest from by
          simp [addPnlChange, h2],
        changeFor_cons, changeFor_cons]
      have hk : k2 = k := beq_iff_eq.mp h2
      subst hk
      by_cases h3 : (k2 == aid) = true
      · rw [if_pos h3, if_pos h3, if_pos h3]
        ring
      · rw [if_neg h3, if_neg h3, if_neg h3]
        ring
    · rw [show addPnlChange ((k2, w) :: rest) k v = (k2, w) :: addPnlChange rest k v from by
          simp [addPnlChange, h2],
        changeFor_cons, changeFor_cons, ih]
      ring

/-- Building the pnl-changes map over trades with non-empty account ids
accumulates exactly the negated owned-pnl sum per account. -/
theorem changeFor_buildLoop (tds : List Trade) (active aid : String)
    (m : List (String × ℚ)) (hwf : ∀ t ∈ tds, t.accountId ≠ "") :
    changeFor (tds.foldl (fun m2 t =>
        addPnlChange m2 (if t.accountId ≠ "" then t.accountId else active) (-t.pnl)) m)
      aid = changeFor m aid - ownedPnlSum tds aid := by
  induction tds generalizing m with
  | nil => simp [ownedPnlSum]
  | cons t rest ih =>
    have ht : t.accountId ≠ "" := hwf t (List.mem_cons_self t rest)
    rw [List.foldl_cons, if_pos ht,
      ih (addPnlChange m t.accountId (-t.pnl)) (fun x hx => hwf x (List.mem_cons_of_mem t hx)),
      changeFor_addPnlChange, ownedPnlSum_cons]
    by_cases ha : (t.accountId == aid) = true
    · rw [if_pos ha, if_pos ha]
      ring
    · rw [if_neg ha, if_neg ha]
      ring

/-- Bumps compose additively. -/
theorem bumpAccount_bumpAccount (a : Account) (x y : ℚ) :
    bumpAccount (bumpAccount a x) y = bumpAccount a (x + y) := by
  cases a
  simp [bumpAccount]
  constructor <;> ring

/-- Applying the pnl-changes map by folding balance updates bumps every
account by its accumulated delta. -/
theorem foldl_updateBalance_eq (m : List (String × ℚ)) (accs : List Account) :
    m.foldl (fun a kv => updateAccountBalanceLocal a kv.1 kv.2) accs =
      accs.map (fun acc => bumpAccount acc (changeFor m acc.id)) := by
  induction m generalizing accs with
  | nil =>
    have : ∀ l : List Account, l.map (fun acc => bumpAccount acc (changeFor [] acc.id)) = l := by
      intro l
      induction l with
      | nil => rfl
      | cons a rest ihl =>
        rw [List.map_cons, ihl]
        rw [show changeFor [] a.id = 0 from rfl, bumpAccount_zero]
    rw [List.foldl_nil, this]
  | cons kv m2 ih =>
    rcases kv with ⟨k, v⟩
    rw [List.foldl_cons, ih, updateAccountBalanceLocal, List.map_map]
    apply List.map_congr_left
    intro acc _
    simp only [Function.comp]
    by_cases hk : (acc.id == k) = true
    · have hk2 : (k == acc.id) = true := beq_iff_eq.mpr (beq_iff_eq.mp hk).symm
      rw [if_pos hk,
        show ({ acc with balance := acc.balance + v, equity := acc.equity + v } : Account)
          = bumpAccount acc v from rfl,
        show (bumpAccount acc v).id = acc.id from rfl,
        bumpAccount_bumpAccount, changeFor_cons, if_pos hk2]
    · have hk2 : (k == acc.id) = false := by
        cases hb : (k == acc.id) with
        | false => rfl
        | true => exact absurd (beq_iff_eq.mpr (beq_iff_eq.mp hb).symm) hk
      rw [if_neg hk, changeFor_cons, hk2]
      simp

/-- The owned-pnl sum splits across the kept/removed partition of a delete. -/
theorem ownedPnlSum_filter_split (ts : List Trade) (ids : List String) (aid : String) :
    ownedPnlSum (ts.filter (fun t => !(ids.contains t.id))) aid =
      ownedPnlSum ts aid - ownedPnlSum (ts.filter (fun t => ids.contains t.id)) aid := by
  induction ts with
  | nil => simp [ownedPnlSum]
  | cons t rest ih =>
    by_cases hc : (ids.contains t.id) = true
    · rw [show (t :: rest).filter (fun x => !(ids.contains x.id)) =
          rest.filter (fun x => !(ids.contains x.id)) from by
            rw [List.filter_cons, if_neg (by simpa using hc)],
        show (t :: rest).filter (fun x => ids.contains x.id) =
          t :: rest.filter (fun x => ids.contains x.id) from by
            rw [List.filter_cons, if_pos (by simpa using hc)],
        ih, ownedPnlSum_cons, ownedPnlSum_cons]
      ring
    · rw [show (t :: rest).filter (fun x => !(ids.contains x.id)) =
          t :: rest.filter (fun x => !(ids.contains x.id)) from by
            rw [List.filter_cons, if_pos (by simpa using hc)],
        show (t :: rest).filter (fun x => ids.contains x.id) =
          rest.filter (fun x => ids.contains x.id) from by
            rw [List.filter_cons, if_neg (by simpa using hc)],
        ownedPnlSum_cons, ownedPnlSum_cons, ih]
      ring

/-- The step case of the invariant for `deleteTrades`, under the assumption
that every stored trade has a non-empty account id (so the
`trade.accountId || activeAccountId` fallback never fires). -/
theorem deleteTrades_inv (st : LedgerState) (ids : List String)
    (aid : String) (B0 : ℚ) (htr : ∀ t ∈ st.trades, t.accountId ≠ "")
    (hinv : BalanceInv aid B0 st) :
    BalanceInv aid B0 (deleteTrades st ids) := by
  rcases ids with _ | ⟨i, ids0⟩
  · exact hinv
  · intro acc2 hmem hid
    have hne : ((i :: ids0).length = 0) = False := by simp
    have htrades : (deleteTrades st (i :: ids0)).trades =
        st.trades.filter (fun t => !((i :: ids0).contains t.id)) := by
      unfold deleteTrades
      rw [if_neg (by simp)]
    have haccs : (deleteTrades st (i :: ids0)).accounts =
        (buildPnlChanges (st.trades.filter (fun t => (i :: ids0).contains t.id))
            st.activeAccountId).foldl
          (fun a kv => updateAccountBalanceLocal a kv.1 kv.2) st.accounts := by
      unfold deleteTrades
      rw [if_neg (by simp)]
    rw [haccs, foldl_updateBalance_eq] at hmem
    rcases List.mem_map.mp hmem with ⟨acc, hacc, rfl⟩
    have hid2 : acc.id = aid := hid
    rw [htrades, ownedPnlSum_filter_split]
    have hwfdel : ∀ t ∈ st.trades.filter (fun t => (i :: ids0).contains t.id),
        t.accountId ≠ "" := fun t htm => htr t (List.mem_of_mem_filter htm)
    have hch : changeFor (buildPnlChanges
          (st.trades.filter (fun t => (i :: ids0).contains t.id)) st.activeAccountId)
        acc.id =
        - ownedPnlSum (st.trades.filter (fun t => (i :: ids0).contains t.id)) acc.id := by
      unfold buildPnlChanges
      rw [changeFor_buildLoop _ _ _ _ hwfdel]
      rw [show changeFor [] acc.id = 0 from rfl]
      ring
    rw [show (bumpAccount acc (changeFor (buildPnlChanges
          (st.trades.filter (fun t => (i :: ids0).contains t.id)) st.activeAccountId)
          acc.id)).balance
        = acc.balance + changeFor (buildPnlChanges
          (st.trades.filter (fun t => (i :: ids0).contains t.id)) st.activeAccountId)
          acc.id from rfl,
      hch, hinv acc hacc hid2, hid2]
    ring

/-- A member of the replaced list is the replacement or a member of the
original. -/
theorem mem_replaceFirstTrade_cases (ts : List Trade) (id : String) (nt x : Trade)
    (h : x ∈ replaceFirstTrade ts id nt) : x = nt ∨ x ∈ ts := by
  induction ts with
  | nil => simp [replaceFirstTrade] at h
  | cons t rest ih =>
    by_cases ht : (t.id == id) = true
    · rw [show replaceFirstTrade (t :: rest) id nt = nt :: rest from by
          simp [replaceFirstTrade, ht]] at h
      rcases List.mem_cons.mp h with rfl | h2
      · exact Or.inl rfl
      · exact Or.inr (List.mem_cons_of_mem t h2)
    · rw [show replaceFirstTrade (t :: rest) id nt = t :: replaceFirstTrade rest id nt from by
          simp [replaceFirstTrade, ht]] at h
      rcases List.mem_cons.mp h with rfl | h2
      · exact Or.inr (List.mem_cons_self _ _)
      · rcases ih h2 with h3 | h3
        · exact Or.inl h3
        · exact Or.inr (List.mem_cons_of_mem t h3)

/-- No ledger operation moves the active-account pointer. -/
theorem applyOp_activeAccountId (st : LedgerState) (op : Op) :
    (applyOp st op).activeAccountId = st.activeAccountId := by
  cases op with
  | add newId d => rfl
  | edit id u =>
    cases hfind : st.trades.find? (fun t => t.id == id) with
    | none => simp [applyOp, editTrade, hfind]
    | some old => simp [applyOp, editTrade, hfind]
  | del ids =>
    rcases ids with _ | ⟨i, ids0⟩
    · rfl
    · show (deleteTrades st (i :: ids0)).activeAccountId = st.activeAccountId
      unfold deleteTrades
      rw [if_neg (by simp)]

/-- Every operation keeps all stored trades' account ids non-empty, given a
non-empty active id. -/
theorem applyOp_trades_accountId (st : LedgerState) (op : Op)
    (hactive : st.activeAccountId ≠ "") (htr : ∀ t ∈ st.trades, t.accountId ≠ "") :
    ∀ t ∈ (applyOp st op).trades, t.accountId ≠ "" := by
  cases op with
  | add newId d =>
    intro t ht
    rw [show (applyOp st (Op.add newId d)).trades =
        builtTrade st newId d :: st.trades from rfl] at ht
    rcases List.mem_cons.mp ht with rfl | h2
    · exact hactive
    · exact htr t h2
  | edit id u =>
    cases hfind : st.trades.find? (fun t2 => t2.id == id) with
    | none =>
      intro t ht
      rw [show (applyOp st (Op.edit id u)).trades = (editTrade st id u).trades from rfl,
        show (editTrade st id u).trades = st.trades from by simp [editTrade, hfind]] at ht
      exact htr t ht
    | some old =>
      intro t ht
      rw [show (applyOp st (Op.edit id u)).trades = (editTrade st id u).trades from rfl,
        show (editTrade st id u).trades =
          replaceFirstTrade st.trades id (applyEditComputations old u) from by
            simp [editTrade, hfind]] at ht
      rcases mem_replaceFirstTrade_cases _ _ _ _ ht with rfl | h2
      · rw [applyEditComputations_accountId]
        exact htr old (List.mem_of_find?_eq_some hfind)
      · exact htr t h2
  | del ids =>
    intro t ht
    rcases ids with _ | ⟨i, ids0⟩
    · exact htr t ht
    · rw [show (applyOp st (Op.del (i :: ids0))).trades =
          (deleteTrades st (i :: ids0)).trades from rfl,
        show (deleteTrades st (i :: ids0)).trades =
          st.trades.filter (fun x => !((i :: ids0).contains x.id)) from by
            unfold deleteTrades
            rw [if_neg (by simp)]] at ht
      exact htr t (List.mem_of_mem_filter ht)

/-- The balance invariant is preserved along any operation sequence, given
that every stored trade carries a non-empty account id and the active id is
non-empty. -/
theorem applyOps_inv (ops : List Op) (st : LedgerState) (aid : String) (B0 : ℚ)
    (hactive : st.activeAccountId ≠ "") (htr : ∀ t ∈ st.trades, t.accountId ≠ "")
    (hinv : BalanceInv aid B0 st) :
    BalanceInv aid B0 (applyOps st ops) := by
  induction ops generalizing st with
  | nil => exact hinv
  | cons op rest ih =>
    have h1 : (applyOp st op).activeAccountId ≠ "" := by
      rw [applyOp_activeAccountId]
      exact hactive
    have h2 := applyOp_trades_accountId st op hactive htr
    have h3 : BalanceInv aid B0 (applyOp st op) := by
      cases op with
      | add newId d => exact addTrade_inv st newId d aid B0 hinv
      | edit id u => exact editTrade_inv st id u aid B0 hinv
      | del ids => exact deleteTrades_inv st ids aid B0 htr hinv
    exact ih (applyOp st op) h1 h2 h3

/-- C1 (amended): for every account and every finite sequence of addTrade,
editTrade, deleteTrade and deleteTrades operations starting from a state in
which the account has balance B0 and owns no trades, the resulting balance
equals B0 plus the pnl sum over the trades whose accountId matches —
provided every ledger trade carries a non-empty accountId and the active
account id is non-empty (otherwise the legacy
`trade.accountId || activeAccountId` fallback of deleteTrades can charge an
unowned trade to the active account, see the counterexample). -/
theorem C1_balance_invariant :
    ∀ (ops : List Op) (st0 : LedgerState) (aid : String) (B0 : ℚ),
      st0.activeAccountId ≠ "" →
      (∀ t ∈ st0.trades, t.accountId ≠ "") →
      (∀ acc ∈ st0.accounts, acc.id = aid → acc.balance = B0) →
      (∀ t ∈ st0.trades, t.accountId ≠ aid) →
      ∀ acc ∈ (applyOps st0 ops).accounts, acc.id = aid →
        acc.balance = B0 + ownedPnlSum (applyOps st0 ops).trades aid := by
  intro ops st0 aid B0 h1 h2 h3 h4
  have hinv0 : BalanceInv aid B0 st0 := by
    intro acc hmem hid
    rw [ownedPnlSum_eq_zero st0.trades aid h4, add_zero]
    exact h3 acc hmem hid
  exact applyOps_inv ops st0 aid B0 h1 h2 hinv0

/-- A one-account state with no trades, for the C1 witness. -/
def emptyLedgerState : LedgerState :=
  { accounts := [sampleAccount], activeAccountId := "A", trades := [] }

/-- The C1 witness operation sequence: add a trade with pnl 20, edit its
pnl to 7, then bulk-delete it together with a missing id. -/
def c1Ops : List Op :=
  [Op.add "t1" c2Input, Op.edit "t1" explicitPnlUpdates, Op.del ["t1", "zz"]]

/-- Witness for C1: running add/edit/delete on account A from balance 100
lands back on balance 100, which the invariant equates with
100 plus the (empty) owned-pnl sum. -/
theorem C1_witness :
    sampleAccount.balance =
      100 + ownedPnlSum (applyOps emptyLedgerState c1Ops).trades "A" := by
  have hmem : sampleAccount ∈ (applyOps emptyLedgerState c1Ops).accounts := by
    have he : (applyOps emptyLedgerState c1Ops).accounts = [sampleAccount] := by
      with_unfolding_all rfl
    rw [he]
    exact List.mem_singleton.mpr rfl
  exact C1_balance_invariant c1Ops emptyLedgerState "A" 100 (by decide)
    (by intro t ht; simp [emptyLedgerState] at ht)
    (by
      intro acc hmem2 _
      rcases List.mem_singleton.mp hmem2 with rfl
      rfl)
    (by intro t ht; simp [emptyLedgerState] at ht)
    _ hmem rfl

end TrackStack
